import Mathlib

/-!
# PNM image decoder (`source/mango/image/image_pnm.cpp`)

A shallow embedding of the PNM/PAM header parser `HeaderPNM::HeaderPNM` and of the
pixel decoder `Interface::decode_matching` with its dispatch `Interface::decode`, followed
by theorems about them.

Conventions of the embedding.

* A byte is a `Nat` (the parser never depends on the signedness of `char`).
* A `const char*` into the input buffer is represented by the list of bytes that are
  readable from that address on: advancing the pointer drops bytes from the front, and the
  offset of a pointer `p` into the buffer `mem` is `mem.length - p.length`.
* Reading a byte that is not there (past the last readable byte) has no defined result in
  C++; the embedding returns `Outcome.undefined` for it, as for signed overflow.
* A `MANGO_EXCEPTION` is `Outcome.error`, with one constructor of `PnmError` per message.
* The C library functions used by the source (`strncmp`, `sscanf`, `atoi`, `isspace`,
  `memcpy`) are embedded from ISO C, reading the input byte by byte and only as far as
  the matching needs.
-/

namespace Pnm

/-! ## Results -/

/-- The messages of the `MANGO_EXCEPTION`s of image_pnm.cpp. -/
inductive PnmError
  | incorrectWidth
  | incorrectHeight
  | incorrectDepth
  | incorrectMaxval
  | incorrectEndhdr
  | incorrectHeader
  | incorrectMaxvalue
  | incorrectChannels
  deriving DecidableEq, Repr

/-- The result of running a piece of the decoder: a value, a thrown exception, or
behaviour that C++ leaves undefined (a read or write outside the storage, signed overflow). -/
inductive Outcome (α : Type)
  | ok (a : α)
  | error (e : PnmError)
  | undefined
  deriving DecidableEq, Repr

/-- Sequencing of outcomes: the first exception or undefined behaviour ends the run. -/
def Outcome.bind {α β : Type} (x : Outcome α) (f : α → Outcome β) : Outcome β :=
  match x with
  | .ok a => f a
  | .error e => .error e
  | .undefined => .undefined

instance : Monad Outcome where
  pure := Outcome.ok
  bind := Outcome.bind

/-- True when the run produced a value. -/
def Outcome.isOk {α : Type} : Outcome α → Bool
  | .ok _ => true
  | _ => false

/-- True when the run threw an exception. -/
def Outcome.isError {α : Type} : Outcome α → Bool
  | .error _ => true
  | _ => false

/-! ## The C library -/

/-- The function `isspace` in the "C" locale: space, `\t`, `\n`, `\v`, `\f`, `\r`. -/
def isspace (c : Nat) : Bool :=
  c == 32 || (9 ≤ c && c ≤ 13)

/-- Matching of a literal (no NUL inside) against the input: the rest of the input when every
byte of the literal is there, `none` at the first byte that differs. Bytes are read only
while the previous ones matched. -/
def matchLiteral : List Nat → List Nat → Outcome (Option (List Nat))
  | [], s => .ok (some s)
  | _ :: _, [] => .undefined
  | l :: lit, c :: s => if c = l then matchLiteral lit s else .ok none

/-- The test `!std::strncmp(p, lit, n)` for a literal `lit` of `n` bytes. -/
def strncmpEq (p lit : List Nat) : Outcome Bool := do
  let r ← matchLiteral lit p
  pure r.isSome

/-- Skipping of white space by `sscanf` and `atoi`: the input from its first byte that is
not white space. -/
def skipSpace : List Nat → Outcome (List Nat)
  | [] => .undefined
  | c :: s => if isspace c then skipSpace s else .ok (c :: s)

/-- An optional sign: whether it is a minus, and the input after it. -/
def scanSign : List Nat → Outcome (Bool × List Nat)
  | [] => .undefined
  | c :: s => if c = 45 then .ok (true, s) else if c = 43 then .ok (false, s) else .ok (false, c :: s)

/-- The value of the byte `c` as a digit of the base `base` (8, 10 or 16). -/
def digitValue (base c : Nat) : Option Nat :=
  if 48 ≤ c ∧ c ≤ 57 then (if c - 48 < base then some (c - 48) else none)
  else if base = 16 ∧ 97 ≤ c ∧ c ≤ 102 then some (c - 87)
  else if base = 16 ∧ 65 ≤ c ∧ c ≤ 70 then some (c - 55)
  else none

/-- The longest run of digits of the base at the front of the input: the number it denotes
on top of `acc`, and the input after it. -/
def scanDigits (base : Nat) : Nat → List Nat → Outcome (Nat × List Nat)
  | _, [] => .undefined
  | acc, c :: s =>
    match digitValue base c with
    | some d => scanDigits base (acc * base + d) s
    | none => .ok (acc, c :: s)

/-- The smallest `int` (32 bits). -/
def INT_MIN : Int := -2147483648

/-- The largest `int` (32 bits). -/
def INT_MAX : Int := 2147483647

/-- An `int` from a sign and a magnitude; a value that an `int` cannot hold is undefined. -/
def toInt (neg : Bool) (n : Nat) : Outcome Int :=
  let v : Int := if neg then -(n : Int) else (n : Int)
  if INT_MIN ≤ v ∧ v ≤ INT_MAX then .ok v else .undefined

/-- The digits of a number in the given base, then its conversion to `int`. -/
def scanNumber (neg : Bool) (base : Nat) (s : List Nat) : Outcome (Option (Int × List Nat)) := do
  let (n, rest) ← scanDigits base 0 s
  let v ← toInt neg n
  pure (some (v, rest))

/-- The directive `%i` of `sscanf`: white space, an optional sign, then a number whose base
follows its prefix (`0x`/`0X` hexadecimal, `0` octal, decimal otherwise), as `strtol` with
base 0. `none` is a matching failure; `0x` without a hexadecimal digit after it is one. -/
def scan_i (s : List Nat) : Outcome (Option (Int × List Nat)) := do
  let s ← skipSpace s
  let (neg, s) ← scanSign s
  match s with
  | [] => .undefined
  | c :: t =>
    if c = 48 then
      match t with
      | [] => .undefined
      | x :: u =>
        if x = 120 ∨ x = 88 then
          match u with
          | [] => .undefined
          | h :: _ => if (digitValue 16 h).isSome then scanNumber neg 16 u else .ok none
        else scanNumber neg 8 (c :: t)
    else if (digitValue 10 c).isSome then scanNumber neg 10 (c :: t)
    else .ok none

/-- The call `std::sscanf(p, "%i", &v)`: the value stored, `none` when the call returns
less than 1. -/
def sscanf_i (p : List Nat) : Outcome (Option Int) := do
  match ← scan_i p with
  | none => pure none
  | some (v, _) => pure (some v)

/-- The call `std::sscanf(p, "%i %i", &a, &b)`: the two values stored, `none` when the call
returns less than 2. -/
def sscanf_i_i (p : List Nat) : Outcome (Option (Int × Int)) := do
  match ← scan_i p with
  | none => pure none
  | some (a, s) =>
    let s ← skipSpace s
    match ← scan_i s with
    | none => pure none
    | some (b, _) => pure (some (a, b))

/-- The call `std::sscanf(p, "KEY %i", &v)` for a literal `KEY`: the value stored, `none`
when the call returns less than 1. -/
def sscanf_key_i (key p : List Nat) : Outcome (Option Int) := do
  match ← matchLiteral key p with
  | none => pure none
  | some s =>
    let s ← skipSpace s
    match ← scan_i s with
    | none => pure none
    | some (v, _) => pure (some v)

/-- The directive `%s` after its white space: the number of bytes up to the next white space
or NUL, counted on top of `n`. -/
def scan_s : Nat → List Nat → Outcome Nat
  | _, [] => .undefined
  | n, c :: s => if isspace c ∨ c = 0 then .ok n else scan_s (n + 1) s

/-- The call `std::sscanf(p, "KEY %s", type)` into `char type[100]`: whether a word was
stored. A word of 100 bytes or more overruns `type`. -/
def sscanf_key_s (key p : List Nat) : Outcome Bool := do
  match ← matchLiteral key p with
  | none => pure false
  | some s =>
    let s ← skipSpace s
    let n ← scan_s 0 s
    if n = 0 then pure false
    else if n < 100 then pure true
    else .undefined

/-- The function `atoi`: white space, an optional sign, then decimal digits; 0 when there is
no digit. A value that an `int` cannot hold is undefined. -/
def atoi (p : List Nat) : Outcome Int := do
  let s ← skipSpace p
  let (neg, s) ← scanSign s
  let (n, _) ← scanDigits 10 0 s
  toInt neg n

/-! ## Line scanning -/

/-- The function `nextline`: `do { for ( ; *p++ != '\n'; ) {} } while (*p == '#');`.
The pointer after the next line feed, and after every following line that begins with `#`. -/
def nextline : List Nat → Outcome (List Nat)
  | [] => .undefined
  | c :: p =>
    if c = 10 then
      match p with
      | [] => .undefined
      | d :: _ => if d = 35 then nextline p else .ok p
    else nextline p

/-! ## The header -/

/-- The first argument of the second `Format` constructor used by the source. -/
inductive FormatType
  | UNORM
  deriving DecidableEq, Repr

/-- The second argument of the second `Format` constructor used by the source. -/
inductive FormatOrder
  | RGB
  | RGBA
  deriving DecidableEq, Repr

/-- Modelled from the spec: the class `Format` of mango/image, which is not among the sources.
A value records the constructor call that made it: `Format(bits, luminanceMask, alphaMask)`
or `Format(bits, type, order, s0, s1, s2, s3)`; two formats are equal when these agree. -/
inductive Format
  | luminance (bits luminanceMask alphaMask : Nat)
  | components (bits : Nat) (type : FormatType) (order : FormatOrder) (s0 s1 s2 s3 : Nat)
  deriving DecidableEq, Repr

/-- The bits of one pixel. -/
def Format.bits : Format → Nat
  | .luminance b _ _ => b
  | .components b _ _ _ _ _ _ => b

/-- The bytes of one pixel. -/
def Format.bytes (f : Format) : Nat := f.bits / 8

/-- The struct `HeaderPNM`. -/
structure HeaderPNM where
  width : Int
  height : Int
  channels : Int
  maxvalue : Int
  format : Format
  ascii : Bool
  data : List Nat
  deriving DecidableEq, Repr

/-- The locals of the constructor of `HeaderPNM` when it reaches the checks of
lines 151 to 162: the four numbers, the flag and the pointer `p`. -/
structure Scanned where
  width : Int
  height : Int
  channels : Int
  maxvalue : Int
  ascii : Bool
  p : List Nat
  deriving DecidableEq, Repr

/-- The bytes of `"P7\n"` and of the other magics `"Pk\n"`, k the digit byte. -/
def magic (k : Nat) : List Nat := [80, k, 10]

/-- The bytes of `"WIDTH"`. -/
def kWIDTH : List Nat := [87, 73, 68, 84, 72]

/-- The bytes of `"HEIGHT"`. -/
def kHEIGHT : List Nat := [72, 69, 73, 71, 72, 84]

/-- The bytes of `"DEPTH"`. -/
def kDEPTH : List Nat := [68, 69, 80, 84, 72]

/-- The bytes of `"MAXVAL"`. -/
def kMAXVAL : List Nat := [77, 65, 88, 86, 65, 76]

/-- The bytes of `"TUPLTYPE"`. -/
def kTUPLTYPE : List Nat := [84, 85, 80, 76, 84, 89, 80, 69]

/-- The bytes of `"ENDHDR\n"`. -/
def kENDHDR : List Nat := [69, 78, 68, 72, 68, 82, 10]

/-- Lines 57 to 102 of the constructor: the PAM dialect. -/
def scanPam (p : List Nat) : Outcome Scanned := do
  let p ← nextline p
  match ← sscanf_key_i kWIDTH p with
  | none => .error .incorrectWidth
  | some width =>
    let p ← nextline p
    match ← sscanf_key_i kHEIGHT p with
    | none => .error .incorrectHeight
    | some height =>
      let p ← nextline p
      match ← sscanf_key_i kDEPTH p with
      | none => .error .incorrectDepth
      | some channels =>
        let p ← nextline p
        match ← sscanf_key_i kMAXVAL p with
        | none => .error .incorrectMaxval
        | some maxvalue =>
          let p ← nextline p
          let _ ← sscanf_key_s kTUPLTYPE p
          let p ← nextline p
          if ← strncmpEq p kENDHDR then
            pure { width := width, height := height, channels := channels,
                   maxvalue := maxvalue, ascii := false, p := p }
          else .error .incorrectEndhdr

/-- Lines 105 to 137 of the constructor: `ascii`, `channels` and `maxvalue` as the
magic of the classic dialect sets them (`maxvalue` stays 0 when the magic does not fix it). -/
def classicMagic (p : List Nat) : Outcome (Bool × Int × Int) := do
  if ← strncmpEq p (magic 49) then pure (true, 1, 1)
  else if ← strncmpEq p (magic 50) then pure (true, 1, 0)
  else if ← strncmpEq p (magic 51) then pure (true, 3, 0)
  else if ← strncmpEq p (magic 52) then pure (false, 1, 1)
  else if ← strncmpEq p (magic 53) then pure (false, 1, 0)
  else if ← strncmpEq p (magic 54) then pure (false, 3, 0)
  else .error .incorrectHeader

/-- Lines 105 to 148 of the constructor: the classic dialect. -/
def scanClassic (p : List Nat) : Outcome Scanned := do
  let (ascii, channels, maxvalue) ← classicMagic p
  let p ← nextline p
  match ← sscanf_i_i p with
  | none => .error .incorrectHeader
  | some (width, height) =>
    if maxvalue = 0 then
      let p ← nextline p
      match ← sscanf_i p with
      | none => .error .incorrectHeader
      | some maxvalue =>
        pure { width := width, height := height, channels := channels,
               maxvalue := maxvalue, ascii := ascii, p := p }
    else
      pure { width := width, height := height, channels := channels,
             maxvalue := maxvalue, ascii := ascii, p := p }

/-- Lines 54 to 149 of the constructor: the scan of the header text. -/
def HeaderPNM.scan (memory : List Nat) : Outcome Scanned := do
  if ← strncmpEq memory (magic 55) then scanPam memory
  else scanClassic memory

/-- The `switch (channels)` of lines 154 to 162. -/
def formatOfChannels (channels : Int) : Outcome Format :=
  if channels = 1 then .ok (Format.luminance 8 0xff 0)
  else if channels = 2 then .ok (Format.luminance 16 0x00ff 0xff00)
  else if channels = 3 then .ok (Format.components 24 .UNORM .RGB 8 8 8 0)
  else if channels = 4 then .ok (Format.components 32 .UNORM .RGBA 8 8 8 8)
  else .error .incorrectChannels

/-- Lines 151 to 164 of the constructor: the checks of `maxvalue` and `channels`, and the
header they let through. -/
def HeaderPNM.check (s : Scanned) : Outcome HeaderPNM := do
  if s.maxvalue < 1 ∨ s.maxvalue > 65535 then .error .incorrectMaxvalue
  else
    let format ← formatOfChannels s.channels
    pure { width := s.width, height := s.height, channels := s.channels,
           maxvalue := s.maxvalue, format := format, ascii := s.ascii, data := s.p }

/-- The constructor `HeaderPNM::HeaderPNM(Memory memory)`, on the bytes readable from
`memory.address` (the constructor does not use `memory.size`). -/
def HeaderPNM.parse (memory : List Nat) : Outcome HeaderPNM := do
  let s ← HeaderPNM.scan memory
  HeaderPNM.check s

/-! ## The decoder -/

/-- The struct `Memory`: `address`, as the bytes readable from it on, and `size`. The bytes may
go on after `address + size` (a view of a part of a larger storage). -/
structure Memory where
  address : List Nat
  size : Nat
  deriving DecidableEq, Repr

/-- Modelled from the spec: the class `Surface` of mango/image, which is not among the sources:
"width, height, pixel format, and an addressable, row-indexed write pointer", with "its own
stride". `image` is the storage of the surface from its first byte, and `address<u8>(0, y)`
is `image + y * stride`. -/
structure Surface where
  width : Int
  height : Int
  format : Format
  stride : Nat
  image : List Nat
  deriving DecidableEq, Repr

/-- The struct `Interface`: the decoder of one buffer. -/
structure Interface where
  m_memory : Memory
  m_header : HeaderPNM
  deriving DecidableEq, Repr

/-- The function `createInterface`, that is the constructor `Interface(Memory memory)`. -/
def createInterface (memory : Memory) : Outcome Interface := do
  let header ← HeaderPNM.parse memory.address
  pure { m_memory := memory, m_header := header }

/-- The test `p >= end` for `end = m_memory.address + m_memory.size`: the offset of `p` is
`address.length - p.length`. -/
def atEnd (memory : Memory) (p : List Nat) : Bool :=
  decide (memory.size + p.length ≤ memory.address.length)

/-- A product of two `int`s; overflow is undefined. -/
def intMul (a b : Int) : Outcome Int :=
  if INT_MIN ≤ a * b ∧ a * b ≤ INT_MAX then .ok (a * b) else .undefined

/-- A quotient of two `int`s, rounded toward zero; division by zero and overflow are
undefined. -/
def intDiv (a b : Int) : Outcome Int :=
  if b = 0 then .undefined
  else if INT_MIN ≤ a.tdiv b ∧ a.tdiv b ≤ INT_MAX then .ok (a.tdiv b) else .undefined

/-- The conversion `u8(v)` of an `int`: the low 8 bits. -/
def u8 (v : Int) : Nat := (v % 256).toNat

/-- The expression `u8(value * 255 / m_header.maxvalue)`. -/
def rescale (value maxvalue : Int) : Outcome Nat := do
  let prod ← intMul value 255
  let q ← intDiv prod maxvalue
  pure (u8 q)

/-- The store `image[x] = v` for `image` at the offset `base` of the storage. -/
def store (image : List Nat) (base x v : Nat) : Outcome (List Nat) :=
  if base + x < image.length then .ok (image.set (base + x) v) else .undefined

/-- The loop `for ( ; !std::isspace(*p++); ) {}`: the pointer after the next white space. -/
def skipToSpace : List Nat → Outcome (List Nat)
  | [] => .undefined
  | c :: p => if isspace c then .ok p else skipToSpace p

/-- The loop over `x` of lines 217 to 228, with `n` iterations to go from column `x`:
the pointer and the storage when the loop ends, by count or by `break`. -/
def asciiRow (memory : Memory) (maxvalue : Int) (base : Nat) :
    Nat → Nat → List Nat → List Nat → Outcome (List Nat × List Nat)
  | 0, _, p, image => .ok (p, image)
  | n + 1, x, p, image => do
    let value ← atoi p
    let v ← rescale value maxvalue
    let image ← store image base x v
    let p ← skipToSpace p
    if atEnd memory p then pure (p, image)
    else asciiRow memory maxvalue base n (x + 1) p image

/-- The loop over `y` of lines 213 to 229, with `n` iterations to go from row `y`. -/
def asciiRows (memory : Memory) (maxvalue : Int) (stride xcount : Nat) :
    Nat → Nat → List Nat → List Nat → Outcome (List Nat)
  | 0, _, _, image => .ok image
  | n + 1, y, p, image => do
    let (p, image) ← asciiRow memory maxvalue (y * stride) xcount 0 p image
    asciiRows memory maxvalue stride xcount n (y + 1) p image

/-- The call `std::memcpy(image, p, xcount)` for `image` at the offset `base` of the storage;
an `xcount` below zero becomes a huge `size_t`. -/
def memcpy (image : List Nat) (base : Nat) (p : List Nat) (xcount : Int) : Outcome (List Nat) :=
  if 0 ≤ xcount ∧ xcount.toNat ≤ p.length ∧ base + xcount.toNat ≤ image.length then
    .ok (image.take base ++ p.take xcount.toNat ++ image.drop (base + xcount.toNat))
  else .undefined

/-- The loop over `y` of lines 235 to 240, with `n` iterations to go from row `y`. -/
def copyRows (stride : Nat) (xcount : Int) : Nat → Nat → List Nat → List Nat → Outcome (List Nat)
  | 0, _, _, image => .ok image
  | n + 1, y, p, image => do
    let image ← memcpy image (y * stride) p xcount
    copyRows stride xcount n (y + 1) (p.drop xcount.toNat) image

/-- Modelled from the spec: `BigEndianPointer::read16` of mango/core/pointer.hpp, which is not
among the sources: "each sample is a 2-byte big-endian unsigned integer"; the pointer moves
on by the two bytes. -/
def read16 : List Nat → Outcome (Nat × List Nat)
  | hi :: lo :: e => .ok (hi * 256 + lo, e)
  | _ => .undefined

/-- The loop over `x` of lines 250 to 254, with `n` iterations to go from column `x`. -/
def wideRow (maxvalue : Int) (base : Nat) :
    Nat → Nat → List Nat → List Nat → Outcome (List Nat × List Nat)
  | 0, _, e, image => .ok (e, image)
  | n + 1, x, e, image => do
    let (value, e) ← read16 e
    let v ← rescale value maxvalue
    let image ← store image base x v
    wideRow maxvalue base n (x + 1) e image

/-- The loop over `y` of lines 246 to 255, with `n` iterations to go from row `y`. -/
def wideRows (maxvalue : Int) (stride xcount : Nat) :
    Nat → Nat → List Nat → List Nat → Outcome (List Nat)
  | 0, _, _, image => .ok image
  | n + 1, y, e, image => do
    let (e, image) ← wideRow maxvalue (y * stride) xcount 0 e image
    wideRows maxvalue stride xcount n (y + 1) e image

/-- The method `Interface::decode_matching(Surface& dest)`: the surface after the call. -/
def Interface.decode_matching (self : Interface) (dest : Surface) : Outcome Surface := do
  let p ← nextline self.m_header.data
  let xcount ← intMul self.m_header.width self.m_header.channels
  if self.m_header.ascii then
    let image ← asciiRows self.m_memory self.m_header.maxvalue dest.stride xcount.toNat
      self.m_header.height.toNat 0 p dest.image
    pure { dest with image := image }
  else if self.m_header.maxvalue ≤ 255 then
    let image ← copyRows dest.stride xcount self.m_header.height.toNat 0 p dest.image
    pure { dest with image := image }
  else
    let image ← wideRows self.m_header.maxvalue dest.stride xcount.toNat
      self.m_header.height.toNat 0 p dest.image
    pure { dest with image := image }

/-- Modelled from the spec: the class `Bitmap` of mango/image, which is not among the sources:
"a temporary surface sized exactly `header.width × header.height` in `header.format`". Its
rows are packed, `width` pixels of the format each, and its storage is not initialised:
`junk i` is the byte found at offset `i`. -/
def Bitmap.new (width height : Int) (format : Format) (junk : Nat → Nat) : Surface :=
  { width := width, height := height, format := format,
    stride := width.toNat * format.bytes,
    image := (List.range (height.toNat * (width.toNat * format.bytes))).map junk }

/-- The method `Interface::decode(Surface& dest, ...)`: the destination after the call.
`Surface::blit` is not among the sources and is a parameter: `blit dest x y source` is the
surface `dest` after `dest.blit(x, y, source)`. -/
def Interface.decode (blit : Surface → Int → Int → Surface → Surface) (junk : Nat → Nat)
    (self : Interface) (dest : Surface) : Outcome Surface :=
  if dest.format = self.m_header.format ∧ dest.width ≥ self.m_header.width
      ∧ dest.height ≥ self.m_header.height then
    self.decode_matching dest
  else do
    let temp ← self.decode_matching
      (Bitmap.new self.m_header.width self.m_header.height self.m_header.format junk)
    pure (blit dest 0 0 temp)

/-- The bytes of a text. -/
def ascii (s : String) : List Nat := s.data.map Char.toNat

/-- A buffer that ends with its last byte: `size` is the number of bytes. -/
def Memory.ofBytes (bytes : List Nat) : Memory := { address := bytes, size := bytes.length }

/-- A surface of `width` by `height` pixels of the format, rows of `stride` bytes, every
byte of the storage equal to `fill`. -/
def Surface.filled (width height : Nat) (format : Format) (stride fill : Nat) : Surface :=
  { width := width, height := height, format := format, stride := stride,
    image := List.replicate (height * stride) fill }

/-- Parse and decode in one go: `createInterface` then `decode_matching`. -/
def decodeBytes (memory : Memory) (dest : Surface) : Outcome (List Nat) := do
  let it ← createInterface memory
  let s ← it.decode_matching dest
  pure s.image

/-! ## Vocabulary of the theorems -/

/-- The text of a number written with the decimal digits `ds`, most significant first. -/
def decimalText (ds : List Nat) : List Nat := ds.map (· + 48)

/-- The number that the decimal digits `ds` denote, on top of `acc`. -/
def decimalFrom (acc : Nat) (ds : List Nat) : Nat := ds.foldl (fun a d => a * 10 + d) acc

/-- The number that the decimal digits `ds` denote, most significant first. -/
def decimalValue (ds : List Nat) : Nat := decimalFrom 0 ds

/-- Decimal digits of a number written without a leading zero: at least one digit, the
first one not 0. -/
def IsDecimal (ds : List Nat) : Prop :=
  (∀ d ∈ ds, d < 10) ∧ ∃ d t, ds = d :: t ∧ d ≠ 0

instance (ds : List Nat) : Decidable (IsDecimal ds) :=
  match ds with
  | [] => isFalse (by rintro ⟨_, d, t, h, _⟩; cases h)
  | d :: t =>
    if h : (∀ x ∈ d :: t, x < 10) ∧ d ≠ 0 then isTrue ⟨h.1, d, t, rfl, h.2⟩
    else isFalse (by
      rintro ⟨h1, d2, t2, h2, h3⟩
      cases h2
      exact h ⟨h1, h3⟩)

/-- A word: at least one byte, fewer than 100, none of them white space or NUL. -/
def IsWord (t : List Nat) : Prop :=
  t ≠ [] ∧ t.length < 100 ∧ ∀ c ∈ t, isspace c = false ∧ c ≠ 0

instance (t : List Nat) : Decidable (IsWord t) := by
  unfold IsWord; infer_instance

/-- A pointer at a byte that does not open a comment line. -/
def StartsLine (nxt : List Nat) : Prop := ∃ c r, nxt = c :: r ∧ c ≠ 35

/-- The text of a PAM header after the magic line: the four key lines, a TUPLTYPE line and
the ENDHDR line. -/
def pamLines (w h d m t : List Nat) (rest : List Nat) : List Nat :=
  kWIDTH ++ 32 :: (decimalText w ++ 10 :: (kHEIGHT ++ 32 :: (decimalText h ++ 10 ::
    (kDEPTH ++ 32 :: (decimalText d ++ 10 :: (kMAXVAL ++ 32 :: (decimalText m ++ 10 ::
      (kTUPLTYPE ++ 32 :: (t ++ 10 :: (kENDHDR ++ rest))))))))))

/-- The storage `image'` is `image` with the `n` bytes from offset `b` replaced by
`g 0, ..., g (n - 1)`. -/
def Seg (b n : Nat) (g : Nat → Nat) (image image' : List Nat) : Prop :=
  image'.length = image.length ∧
  (∀ j, j < n → image'[b + j]? = some (g j)) ∧
  (∀ i, i < b ∨ b + n ≤ i → image'[i]? = image[i]?)

/-- The storage `image'` is `image` with the first `xc` bytes of the rows `y` to
`y + n - 1` replaced, byte `j` of row `y + k` by `f k j`; rows are `stride` bytes apart. -/
def Written (stride xc y n : Nat) (f : Nat → Nat → Nat) (image image' : List Nat) : Prop :=
  image'.length = image.length ∧
  (∀ k j, k < n → j < xc → image'[(y + k) * stride + j]? = some (f k j)) ∧
  (∀ i, (∀ k, k < n → i < (y + k) * stride ∨ (y + k) * stride + xc ≤ i) →
    image'[i]? = image[i]?)

/-- The storage of a surface holds its rows: a row of `width` pixels fits in `stride`
bytes and the storage has `height` rows of `stride` bytes. -/
def Surface.Holds (dest : Surface) : Prop :=
  0 ≤ dest.width ∧ 0 ≤ dest.height ∧ dest.width.toNat * dest.format.bytes ≤ dest.stride
    ∧ dest.height.toNat * dest.stride ≤ dest.image.length

/-- A P5 image of 2 by 2 pixels and maxvalue 1, with the pixel bytes 1, 0, 1, 1. -/
def demoBitmap : Memory := Memory.ofBytes (ascii "P5\n2 2\n1\n" ++ [1, 0, 1, 1])

/-- The decoder of `demoBitmap`, as `createInterface` returns it. -/
def demoBitmapInterface : Interface :=
  { m_memory := demoBitmap
    m_header := { width := 2, height := 2, channels := 1, maxvalue := 1,
                  format := .luminance 8 0xff 0, ascii := false,
                  data := ascii "1\n" ++ [1, 0, 1, 1] } }

/-- A destination of 3 by 3 pixels of one byte, rows of 4 bytes, every byte 99. -/
def demoGray3 : Surface := Surface.filled 3 3 (.luminance 8 0xff 0) 4 99

/-- The byte that lines 252 and 253 make of the `i`-th pair of bytes of `e`. -/
def wideSample (m : Nat) (e : List Nat) (i : Nat) : Nat :=
  ((e.getD (2 * i) 0 * 256 + e.getD (2 * i + 1) 0) * 255 / m) % 256

/-- A P5 image of 1 by 1 pixel and maxvalue 65535, with the sample 0x8000. -/
def demoWide : Memory := Memory.ofBytes (ascii "P5\n1 1\n65535\n" ++ [128, 0])

/-- The decoder of `demoWide`, as `createInterface` returns it. -/
def demoWideInterface : Interface :=
  { m_memory := demoWide
    m_header := { width := 1, height := 1, channels := 1, maxvalue := 65535,
                  format := .luminance 8 0xff 0, ascii := false,
                  data := ascii "65535\n" ++ [128, 0] } }

/-- Decimal digits of a number, leading zeros allowed: at least one digit. -/
def IsDigits (ds : List Nat) : Prop := ds ≠ [] ∧ ∀ d ∈ ds, d < 10

instance (ds : List Nat) : Decidable (IsDigits ds) := by
  unfold IsDigits; infer_instance

/-- A pixel text: every token is the digits of a number followed by one byte. -/
def tokensText : List (List Nat × Nat) → List Nat
  | [] => []
  | (ds, ws) :: rest => decimalText ds ++ ws :: tokensText rest

/-- The byte that line 220 makes of a token under the maxvalue `m`. -/
def asciiSample (m : Nat) (tok : List Nat × Nat) : Nat := decimalValue tok.1 * 255 / m % 256

/-- A token that line 219 to 224 read as meant: digits, a white space after them, and a
value that is at most `m`. -/
def TokenOk (m : Nat) (tok : List Nat × Nat) : Prop :=
  IsDigits tok.1 ∧ isspace tok.2 = true ∧ decimalValue tok.1 ≤ m

instance (m : Nat) (tok : List Nat × Nat) : Decidable (TokenOk m tok) := by
  unfold TokenOk; infer_instance

/-- A P2 image of 3 by 1 pixels and maxvalue 15, with the text `15 0 7 `. -/
def demoAscii : Memory := Memory.ofBytes (ascii "P2\n3 1\n15\n15 0 7 ")

/-- The decoder of `demoAscii`, as `createInterface` returns it. -/
def demoAsciiInterface : Interface :=
  { m_memory := demoAscii
    m_header := { width := 3, height := 1, channels := 1, maxvalue := 15,
                  format := .luminance 8 0xff 0, ascii := true,
                  data := ascii "15\n15 0 7 " } }

/-- The tokens `15`, `0` and `7`, a space after each. -/
def demoTokens : List (List Nat × Nat) := [([1, 5], 32), ([0], 32), ([7], 32)]

/-- Comment lines: for each body a `#`, the body and a line feed. -/
def commentLines : List (List Nat) → List Nat
  | [] => []
  | b :: bs => 35 :: (b ++ 10 :: commentLines bs)

/-- Bodies of comment lines: none of them holds a line feed. -/
def IsComments (bodies : List (List Nat)) : Prop := ∀ b ∈ bodies, 10 ∉ b

instance (bodies : List (List Nat)) : Decidable (IsComments bodies) := by
  unfold IsComments; infer_instance

/-- A header line for the scan `f`: the line `l` has no line feed inside, does not begin
with `#`, and the scan of the line gives `r` whatever follows the line feed that ends the
line (the scan does not read past its own line). -/
def HeaderLine {α : Type} (f : List Nat → Outcome α) (l : List Nat) (r : Outcome α) : Prop :=
  10 ∉ l ∧ (∀ t, l ≠ 35 :: t) ∧ ∀ X, f (l ++ 10 :: X) = r

/-- The text `s` begins with a byte that is no white space and cannot begin a number: neither
a sign nor a decimal digit, or a sign that no decimal digit follows. -/
def NotNumber (s : List Nat) : Prop :=
  ∃ c t, s = c :: t ∧ isspace c = false ∧
    ((c ≠ 45 ∧ c ≠ 43 ∧ digitValue 10 c = none) ∨
      ((c = 45 ∨ c = 43) ∧ ∃ c2 t2, t = c2 :: t2 ∧ digitValue 10 c2 = none))

/-- No integer at the front of the text `s`: after its leading white space, line feeds
included, the text does not begin a number. -/
def NoInteger (s : List Nat) : Prop :=
  ∃ ws s', s = ws ++ s' ∧ (∀ b ∈ ws, isspace b = true) ∧ NotNumber s'

/-- The text `s`, from the start of a line, does not carry the key with its integer: either
the line does not begin with the key, or the key is there and no integer follows it. -/
def BadKeyLine (key s : List Nat) : Prop :=
  (∃ l Y, s = l ++ 10 :: Y ∧ 10 ∉ l ∧ ¬ ∃ t, l = key ++ t) ∨ (∃ r, s = key ++ r ∧ NoInteger r)

/-- The storage `image` with the bytes `vals` put at the offset `off`. -/
def overwrite (image : List Nat) (off : Nat) (vals : List Nat) : List Nat :=
  image.take off ++ vals ++ image.drop (off + vals.length)

/-- The storage `image` with the rows `rows` put at the start of the rows `y`, `y + 1`, ...,
rows being `stride` bytes apart: what decoding at offset (0, 0), row by row, leaves. -/
def layRows (stride : Nat) : Nat → List (List Nat) → List Nat → List Nat
  | _, [], image => image
  | y, r :: rs, image => layRows stride (y + 1) rs (overwrite image (y * stride) r)

/-- The samples of one row of ASCII text, as lines 219 to 227 produce them, and the
pointer after them; no destination is involved. -/
def asciiRowSamples (memory : Memory) (maxvalue : Int) :
    Nat → List Nat → Outcome (List Nat × List Nat)
  | 0, p => .ok (p, [])
  | n + 1, p => do
    let value ← atoi p
    let v ← rescale value maxvalue
    let p ← skipToSpace p
    if atEnd memory p then pure (p, [v])
    else do
      let r ← asciiRowSamples memory maxvalue n p
      pure (r.1, v :: r.2)

/-- The samples of `n` rows of ASCII text. -/
def asciiSamples (memory : Memory) (maxvalue : Int) (xcount : Nat) :
    Nat → List Nat → Outcome (List (List Nat))
  | 0, _ => .ok []
  | n + 1, p => do
    let r ← asciiRowSamples memory maxvalue xcount p
    let rs ← asciiSamples memory maxvalue xcount n r.1
    pure (r.2 :: rs)

/-- The samples of `n` rows of bytes, `xcount` bytes each. -/
def copySamples (xcount : Int) : Nat → List Nat → Outcome (List (List Nat))
  | 0, _ => .ok []
  | n + 1, p =>
    if 0 ≤ xcount ∧ xcount.toNat ≤ p.length then do
      let rs ← copySamples xcount n (p.drop xcount.toNat)
      pure (p.take xcount.toNat :: rs)
    else .undefined

/-- The samples of one row of 16-bit values, and the pointer after them. -/
def wideRowSamples (maxvalue : Int) : Nat → List Nat → Outcome (List Nat × List Nat)
  | 0, e => .ok (e, [])
  | n + 1, e => do
    let (value, e) ← read16 e
    let v ← rescale value maxvalue
    let r ← wideRowSamples maxvalue n e
    pure (r.1, v :: r.2)

/-- The samples of `n` rows of 16-bit values. -/
def wideSamples (maxvalue : Int) (xcount : Nat) : Nat → List Nat → Outcome (List (List Nat))
  | 0, _ => .ok []
  | n + 1, e => do
    let r ← wideRowSamples maxvalue xcount e
    let rs ← wideSamples maxvalue xcount n r.1
    pure (r.2 :: rs)

/-- The decoded samples of the source, row by row: what `decode_matching` computes from the
buffer and the header alone, before any layout in a surface. -/
def Interface.samples (self : Interface) : Outcome (List (List Nat)) := do
  let p ← nextline self.m_header.data
  let xcount ← intMul self.m_header.width self.m_header.channels
  if self.m_header.ascii then
    asciiSamples self.m_memory self.m_header.maxvalue xcount.toNat self.m_header.height.toNat p
  else if self.m_header.maxvalue ≤ 255 then
    copySamples xcount self.m_header.height.toNat p
  else
    wideSamples self.m_header.maxvalue xcount.toNat self.m_header.height.toNat p

/-- The dispatch of the decoder in the words of the specification: when the destination has
the format of the header and at least its width and height, the samples are decoded directly
into the destination at offset (0, 0), row by row; otherwise into a temporary surface of
exactly `header.width` by `header.height` in the format of the header, which is then blitted
into the destination at (0, 0). -/
def decodeSpec (blit : Surface → Int → Int → Surface → Surface) (junk : Nat → Nat)
    (it : Interface) (dest : Surface) : Outcome Surface := do
  let rows ← it.samples
  if dest.format = it.m_header.format ∧ dest.width ≥ it.m_header.width
      ∧ dest.height ≥ it.m_header.height then
    pure { dest with image := layRows dest.stride 0 rows dest.image }
  else
    let temp := Bitmap.new it.m_header.width it.m_header.height it.m_header.format junk
    pure (blit dest 0 0 { temp with image := layRows temp.stride 0 rows temp.image })

/-- A stand-in for `Surface::blit` in examples: the bytes of the source go to the front of
the storage of the destination. -/
def demoBlit (dest : Surface) (_x _y : Int) (source : Surface) : Surface :=
  { dest with image := overwrite dest.image 0 source.image }

/-- A destination of 2 by 2 pixels of four bytes, rows of 8 bytes, every byte 0. -/
def demoRgba2 : Surface := Surface.filled 2 2 (.components 32 .UNORM .RGBA 8 8 8 8) 8 0

/-! ## Lemmas -/

@[simp] theorem Outcome.ok_bind {α β : Type} (a : α) (f : α → Outcome β) :
    (Outcome.ok a >>= f) = f a := rfl

@[simp] theorem Outcome.error_bind {α β : Type} (e : PnmError) (f : α → Outcome β) :
    (Outcome.error e >>= f) = Outcome.error e := rfl

@[simp] theorem Outcome.undefined_bind {α β : Type} (f : α → Outcome β) :
    (Outcome.undefined >>= f) = Outcome.undefined := rfl

@[simp] theorem Outcome.pure_eq {α : Type} (a : α) : (pure a : Outcome α) = Outcome.ok a := rfl

theorem isspace_digit {d : Nat} (_h : d < 10) : isspace (d + 48) = false := by
  simp [isspace]

theorem digitValue_digit {d : Nat} (h : d < 10) : digitValue 10 (d + 48) = some d := by
  simp [digitValue, h]; omega

theorem digitValue_lf (base : Nat) : digitValue base 10 = none := by
  simp [digitValue]

theorem digitValue_space (base : Nat) : digitValue base 32 = none := by
  simp [digitValue]

theorem scanDigits_decimal (ds : List Nat) (hds : ∀ d ∈ ds, d < 10) (acc c : Nat) (r : List Nat)
    (hc : digitValue 10 c = none) :
    scanDigits 10 acc (decimalText ds ++ c :: r) = .ok (decimalFrom acc ds, c :: r) := by
  induction ds generalizing acc with
  | nil => simp [decimalText, decimalFrom, scanDigits, hc]
  | cons d t ih =>
    have hd : d < 10 := hds d (List.mem_cons_self _ _)
    have ht : ∀ x ∈ t, x < 10 := fun x hx => hds x (List.mem_cons_of_mem _ hx)
    have := ih ht (acc * 10 + d)
    simp only [decimalText, List.map_cons, List.cons_append, scanDigits, digitValue_digit hd,
      decimalFrom, List.foldl_cons] at this ⊢
    exact this

theorem decimalFrom_le (ds : List Nat) (acc : Nat) : acc ≤ decimalFrom acc ds := by
  induction ds generalizing acc with
  | nil => simp [decimalFrom]
  | cons d t ih =>
    have := ih (acc * 10 + d)
    simp only [decimalFrom, List.foldl_cons] at this ⊢
    omega

/-- The directive `%i` on a decimal text without leading zero that an `int` can hold, when
a byte that is no digit follows. -/
theorem scan_i_decimal (ds : List Nat) (hds : IsDecimal ds) (hv : (decimalValue ds : Int) ≤ INT_MAX)
    (c : Nat) (r : List Nat) (hc : digitValue 10 c = none) :
    scan_i (decimalText ds ++ c :: r) = .ok (some ((decimalValue ds : Int), c :: r)) := by
  obtain ⟨hlt, d, t, rfl, hd0⟩ := hds
  have hd : d < 10 := hlt d (List.mem_cons_self _ _)
  have h1 := scanDigits_decimal (d :: t) hlt 0 c r hc
  simp only [decimalText, List.map_cons, List.cons_append] at h1
  have h45 : d + 48 ≠ 45 := by omega
  have h43 : d + 48 ≠ 43 := by omega
  have h48 : d + 48 ≠ 48 := by omega
  have hmin : INT_MIN ≤ ((decimalFrom 0 (d :: t) : Nat) : Int) := by
    have : (0 : Int) ≤ ((decimalFrom 0 (d :: t) : Nat) : Int) := Int.ofNat_nonneg _
    simp only [INT_MIN]; omega
  simp only [decimalValue] at hv
  simp [scan_i, decimalText, skipSpace, isspace_digit hd, scanSign, h45, h43, h48,
    digitValue_digit hd, scanNumber, h1, toInt, hmin, hv, decimalValue]

theorem nextline_line (l : List Nat) (hl : 10 ∉ l) (c : Nat) (r : List Nat) (hc : c ≠ 35) :
    nextline (l ++ 10 :: c :: r) = .ok (c :: r) := by
  induction l with
  | nil => simp [nextline, hc]
  | cons a t ih =>
    have ha : a ≠ 10 := fun h => hl (by simp [h])
    have ht : 10 ∉ t := fun h => hl (List.mem_cons_of_mem _ h)
    simp [nextline, ha, ih ht]

theorem lf_not_mem_decimalText (ds : List Nat) : 10 ∉ decimalText ds := by
  intro h
  simp only [decimalText, List.mem_map] at h
  obtain ⟨d, _, hd⟩ := h
  omega

theorem skipSpace_decimal (ds : List Nat) (hds : IsDecimal ds) (r : List Nat) :
    skipSpace (decimalText ds ++ r) = .ok (decimalText ds ++ r) := by
  obtain ⟨hlt, d, t, rfl, _⟩ := hds
  have hd : d < 10 := hlt d (List.mem_cons_self _ _)
  simp [decimalText, skipSpace, isspace_digit hd]

theorem skipSpace_word (t : List Nat) (ht : IsWord t) (r : List Nat) :
    skipSpace (t ++ r) = .ok (t ++ r) := by
  obtain ⟨hne, _, hall⟩ := ht
  cases t with
  | nil => exact absurd rfl hne
  | cons a u => simp [skipSpace, (hall a (List.mem_cons_self _ _)).1]

theorem scan_s_word (t : List Nat) (hall : ∀ c ∈ t, isspace c = false ∧ c ≠ 0) (n : Nat)
    (r : List Nat) : scan_s n (t ++ 10 :: r) = .ok (n + t.length) := by
  induction t generalizing n with
  | nil => simp [scan_s, isspace]
  | cons a u ih =>
    have ha := hall a (List.mem_cons_self _ _)
    have hu : ∀ c ∈ u, isspace c = false ∧ c ≠ 0 := fun c hc => hall c (List.mem_cons_of_mem _ hc)
    simp [scan_s, ha.1, ha.2, ih hu (n + 1)]
    omega

theorem lf_not_mem_word (t : List Nat) (ht : IsWord t) : 10 ∉ t := by
  intro h
  have := (ht.2.2 10 h).1
  simp [isspace] at this

theorem nextline_skip (l nxt : List Nat) (hl : 10 ∉ l) (hn : StartsLine nxt) :
    nextline (l ++ 10 :: nxt) = .ok nxt := by
  obtain ⟨c, r, rfl, hc⟩ := hn
  exact nextline_line l hl c r hc

theorem startsLine_cons (c : Nat) (r : List Nat) (hc : c ≠ 35) : StartsLine (c :: r) :=
  ⟨c, r, rfl, hc⟩

theorem startsLine_decimal (ds : List Nat) (hds : IsDecimal ds) (r : List Nat) :
    StartsLine (decimalText ds ++ r) := by
  obtain ⟨hlt, d, t, rfl, _⟩ := hds
  have hd : d < 10 := hlt d (List.mem_cons_self _ _)
  exact ⟨d + 48, decimalText t ++ r, by simp [decimalText], by omega⟩

theorem matchLiteral_self (key s : List Nat) : matchLiteral key (key ++ s) = .ok (some s) := by
  induction key with
  | nil => simp [matchLiteral]
  | cons a t ih => simp [matchLiteral, ih]

/-- The call `sscanf(p, "KEY %i", &v)` on a line `KEY`, a space, a decimal text. -/
theorem sscanf_key_i_line (key ds : List Nat) (hds : IsDecimal ds)
    (hv : (decimalValue ds : Int) ≤ INT_MAX) (r : List Nat) :
    sscanf_key_i key (key ++ 32 :: (decimalText ds ++ 10 :: r)) =
      .ok (some (decimalValue ds : Int)) := by
  simp [sscanf_key_i, matchLiteral_self, skipSpace, isspace, skipSpace_decimal ds hds,
    scan_i_decimal ds hds hv 10 r (digitValue_lf 10)]

theorem sscanf_i_line (ds : List Nat) (hds : IsDecimal ds)
    (hv : (decimalValue ds : Int) ≤ INT_MAX) (r : List Nat) :
    sscanf_i (decimalText ds ++ 10 :: r) = .ok (some (decimalValue ds : Int)) := by
  simp [sscanf_i, scan_i_decimal ds hds hv 10 r (digitValue_lf 10)]

theorem sscanf_i_i_line (ws hs : List Nat) (hws : IsDecimal ws) (hhs : IsDecimal hs)
    (hw : (decimalValue ws : Int) ≤ INT_MAX) (hh : (decimalValue hs : Int) ≤ INT_MAX)
    (r : List Nat) :
    sscanf_i_i (decimalText ws ++ 32 :: (decimalText hs ++ 10 :: r)) =
      .ok (some ((decimalValue ws : Int), (decimalValue hs : Int))) := by
  simp [sscanf_i_i, scan_i_decimal ws hws hw 32 _ (digitValue_space 10), skipSpace, isspace,
    skipSpace_decimal hs hhs, scan_i_decimal hs hhs hh 10 r (digitValue_lf 10)]

/-- The call `sscanf(p, "KEY %s", type)` on a line `KEY`, a space, a word. -/
theorem sscanf_key_s_line (key t : List Nat) (ht : IsWord t) (r : List Nat) :
    sscanf_key_s key (key ++ 32 :: (t ++ 10 :: r)) = .ok true := by
  have hlen := ht.2.1
  have hne : t.length ≠ 0 := by
    have := ht.1
    cases t with
    | nil => exact absurd rfl this
    | cons a u => simp
  simp [sscanf_key_s, matchLiteral_self, skipSpace, isspace, skipSpace_word t ht,
    scan_s_word t ht.2.2 0 r, hne, hlen]

theorem lf_not_mem_key_line (key body : List Nat) (hk : 10 ∉ key) (hb : 10 ∉ body) :
    10 ∉ key ++ 32 :: body := by
  simp only [List.mem_append, List.mem_cons, not_or]
  exact ⟨hk, by decide, hb⟩

/-- The PAM dialect on a header made of the lines WIDTH, HEIGHT, DEPTH, MAXVAL, TUPLTYPE
and ENDHDR: the four numbers, and the pointer on the ENDHDR line. -/
theorem scanPam_lines (w h d m t : List Nat) (hw : IsDecimal w) (hh : IsDecimal h)
    (hd : IsDecimal d) (hm : IsDecimal m) (ht : IsWord t)
    (vw : (decimalValue w : Int) ≤ INT_MAX) (vh : (decimalValue h : Int) ≤ INT_MAX)
    (vd : (decimalValue d : Int) ≤ INT_MAX) (vm : (decimalValue m : Int) ≤ INT_MAX)
    (rest : List Nat) :
    scanPam (magic 55 ++ pamLines w h d m t rest) =
      .ok { width := decimalValue w, height := decimalValue h, channels := decimalValue d,
            maxvalue := decimalValue m, ascii := false, p := kENDHDR ++ rest } := by
  have n0 : ∀ x, nextline (magic 55 ++ (kWIDTH ++ x)) = .ok (kWIDTH ++ x) := fun x =>
    nextline_skip [80, 55] _ (by decide) (startsLine_cons 87 _ (by decide))
  have n1 : ∀ x, nextline (kWIDTH ++ 32 :: (decimalText w ++ 10 :: (kHEIGHT ++ x))) =
      .ok (kHEIGHT ++ x) := fun x => by
    have := nextline_skip (kWIDTH ++ 32 :: decimalText w) (kHEIGHT ++ x)
      (lf_not_mem_key_line _ _ (by decide) (lf_not_mem_decimalText w))
      (startsLine_cons 72 _ (by decide))
    simpa using this
  have n2 : ∀ x, nextline (kHEIGHT ++ 32 :: (decimalText h ++ 10 :: (kDEPTH ++ x))) =
      .ok (kDEPTH ++ x) := fun x => by
    have := nextline_skip (kHEIGHT ++ 32 :: decimalText h) (kDEPTH ++ x)
      (lf_not_mem_key_line _ _ (by decide) (lf_not_mem_decimalText h))
      (startsLine_cons 68 _ (by decide))
    simpa using this
  have n3 : ∀ x, nextline (kDEPTH ++ 32 :: (decimalText d ++ 10 :: (kMAXVAL ++ x))) =
      .ok (kMAXVAL ++ x) := fun x => by
    have := nextline_skip (kDEPTH ++ 32 :: decimalText d) (kMAXVAL ++ x)
      (lf_not_mem_key_line _ _ (by decide) (lf_not_mem_decimalText d))
      (startsLine_cons 77 _ (by decide))
    simpa using this
  have n4 : ∀ x, nextline (kMAXVAL ++ 32 :: (decimalText m ++ 10 :: (kTUPLTYPE ++ x))) =
      .ok (kTUPLTYPE ++ x) := fun x => by
    have := nextline_skip (kMAXVAL ++ 32 :: decimalText m) (kTUPLTYPE ++ x)
      (lf_not_mem_key_line _ _ (by decide) (lf_not_mem_decimalText m))
      (startsLine_cons 84 _ (by decide))
    simpa using this
  have n5 : ∀ x, nextline (kTUPLTYPE ++ 32 :: (t ++ 10 :: (kENDHDR ++ x))) =
      .ok (kENDHDR ++ x) := fun x => by
    have := nextline_skip (kTUPLTYPE ++ 32 :: t) (kENDHDR ++ x)
      (lf_not_mem_key_line _ _ (by decide) (lf_not_mem_word t ht))
      (startsLine_cons 69 _ (by decide))
    simpa using this
  simp only [scanPam, pamLines, n0, n1, n2, n3, n4, n5, Outcome.ok_bind,
    sscanf_key_i_line _ w hw vw, sscanf_key_i_line _ h hh vh, sscanf_key_i_line _ d hd vd,
    sscanf_key_i_line _ m hm vm, sscanf_key_s_line _ t ht, strncmpEq, matchLiteral_self]
  rfl

theorem strncmpEq_magic7 (x : List Nat) : strncmpEq (magic 55 ++ x) (magic 55) = .ok true := by
  simp [strncmpEq, matchLiteral_self]

theorem strncmpEq_magic_ne (k : Nat) (hk : k ≠ 55) (x : List Nat) :
    strncmpEq (magic k ++ x) (magic 55) = .ok false := by
  simp [strncmpEq, matchLiteral, magic, hk]

/-- What lines 105 to 137 set for the six magics of the classic dialect. -/
theorem classicMagic_eq (k : Nat) (hk : 49 ≤ k ∧ k ≤ 54) (x : List Nat) :
    classicMagic (magic k ++ x) =
      .ok (decide (k ≤ 51), if k = 51 ∨ k = 54 then 3 else 1, if k = 49 ∨ k = 52 then 1 else 0) := by
  obtain ⟨h1, h2⟩ := hk
  interval_cases k <;> simp [classicMagic, strncmpEq, matchLiteral, magic]

/-- The classic dialect on a magic that does not fix maxvalue (P2, P3, P5, P6), a dimension
line and a maxvalue line: the pointer ends on the maxvalue line. -/
theorem scanClassic_lines (k : Nat) (hk : k = 50 ∨ k = 51 ∨ k = 53 ∨ k = 54)
    (w h m : List Nat) (hw : IsDecimal w) (hh : IsDecimal h) (hm : IsDecimal m)
    (vw : (decimalValue w : Int) ≤ INT_MAX) (vh : (decimalValue h : Int) ≤ INT_MAX)
    (vm : (decimalValue m : Int) ≤ INT_MAX) (rest : List Nat) :
    scanClassic (magic k ++ (decimalText w ++ 32 :: (decimalText h ++ 10 ::
        (decimalText m ++ 10 :: rest)))) =
      .ok { width := decimalValue w, height := decimalValue h,
            channels := if k = 51 ∨ k = 54 then 3 else 1, maxvalue := decimalValue m,
            ascii := decide (k ≤ 51), p := decimalText m ++ 10 :: rest } := by
  have hk2 : 49 ≤ k ∧ k ≤ 54 := by omega
  have hk3 : ¬ (k = 49 ∨ k = 52) := by omega
  have hk10 : k ≠ 10 := by omega
  have n0 : ∀ x, nextline (magic k ++ (decimalText w ++ x)) = .ok (decimalText w ++ x) :=
    fun x => nextline_skip [80, k] _ (by simp; omega) (startsLine_decimal w hw x)
  have n1 : ∀ x, nextline (decimalText w ++ 32 :: (decimalText h ++ 10 :: (decimalText m ++ x))) =
      .ok (decimalText m ++ x) := fun x => by
    have := nextline_skip (decimalText w ++ 32 :: decimalText h) (decimalText m ++ x)
      (by
        simp only [List.mem_append, List.mem_cons, not_or]
        exact ⟨lf_not_mem_decimalText w, by decide, lf_not_mem_decimalText h⟩)
      (startsLine_decimal m hm x)
    simpa using this
  simp only [scanClassic, classicMagic_eq k hk2, Outcome.ok_bind, n0, n1,
    sscanf_i_i_line w h hw hh vw vh, sscanf_i_line m hm vm, hk3, if_false, if_true]
  rfl

/-- The classic dialect on a magic that fixes maxvalue (P1, P4) and a dimension line: no
further line is read and the pointer stays on the dimension line. -/
theorem scanClassic_bitmap (k : Nat) (hk : k = 49 ∨ k = 52)
    (w h : List Nat) (hw : IsDecimal w) (hh : IsDecimal h)
    (vw : (decimalValue w : Int) ≤ INT_MAX) (vh : (decimalValue h : Int) ≤ INT_MAX)
    (rest : List Nat) :
    scanClassic (magic k ++ (decimalText w ++ 32 :: (decimalText h ++ 10 :: rest))) =
      .ok { width := decimalValue w, height := decimalValue h, channels := 1, maxvalue := 1,
            ascii := decide (k ≤ 51), p := decimalText w ++ 32 :: (decimalText h ++ 10 :: rest) } := by
  have hk2 : 49 ≤ k ∧ k ≤ 54 := by omega
  have hk3 : ¬ (k = 51 ∨ k = 54) := by omega
  have n0 : ∀ x, nextline (magic k ++ (decimalText w ++ x)) = .ok (decimalText w ++ x) :=
    fun x => nextline_skip [80, k] _ (by simp; omega) (startsLine_decimal w hw x)
  simp only [scanClassic, classicMagic_eq k hk2, Outcome.ok_bind, n0,
    sscanf_i_i_line w h hw hh vw vh, hk, hk3, if_false, if_true]
  simp

theorem matchLiteral_isSome (lit p : List Nat) (s : List Nat)
    (h : matchLiteral lit p = .ok (some s)) : p = lit ++ s := by
  induction lit generalizing p with
  | nil => simpa [matchLiteral] using h
  | cons l t ih =>
    cases p with
    | nil => simp [matchLiteral] at h
    | cons c q =>
      by_cases hc : c = l
      · simp only [matchLiteral, hc, if_true] at h
        simp [hc, ih q h]
      · simp [matchLiteral, hc] at h

/-- The test of `strncmp` holds only on a buffer that begins with the literal. -/
theorem strncmpEq_true (p lit : List Nat) (h : strncmpEq p lit = .ok true) :
    ∃ rest, p = lit ++ rest := by
  unfold strncmpEq at h
  cases hm : matchLiteral lit p with
  | ok r =>
    cases r with
    | none => simp [hm] at h
    | some s => exact ⟨s, matchLiteral_isSome lit p s hm⟩
  | error e => simp [hm] at h
  | undefined => simp [hm] at h

/-- On a buffer at least as long as the literal the test of `strncmp` reads inside the
buffer and fails unless the buffer begins with the literal. -/
theorem strncmpEq_false (lit p : List Nat) (hlen : lit.length ≤ p.length)
    (hp : ¬ ∃ rest, p = lit ++ rest) : strncmpEq p lit = .ok false := by
  have key : ∀ (lit p : List Nat), lit.length ≤ p.length →
      (∃ s, matchLiteral lit p = .ok (some s)) ∨ matchLiteral lit p = .ok none := by
    intro lit
    induction lit with
    | nil => intro p _; exact Or.inl ⟨p, by simp [matchLiteral]⟩
    | cons l t ih =>
      intro p hl
      cases p with
      | nil => simp at hl
      | cons c q =>
        by_cases hc : c = l
        · simp only [matchLiteral, hc, if_true]
          exact ih q (by simpa using hl)
        · exact Or.inr (by simp [matchLiteral, hc])
  rcases key lit p hlen with ⟨s, hs⟩ | hn
  · exact absurd ⟨s, matchLiteral_isSome lit p s hs⟩ hp
  · simp [strncmpEq, hn]

/-- A buffer on which the scan of the header succeeds begins with one of the seven magics. -/
theorem scan_ok_magic (mem : List Nat) (s : Scanned) (h : HeaderPNM.scan mem = .ok s) :
    ∃ k rest, 49 ≤ k ∧ k ≤ 55 ∧ mem = magic k ++ rest := by
  unfold HeaderPNM.scan at h
  cases h7 : strncmpEq mem (magic 55) with
  | error e => simp [h7] at h
  | undefined => simp [h7] at h
  | ok b7 =>
    cases b7 with
    | true =>
      obtain ⟨rest, hr⟩ := strncmpEq_true mem _ h7
      exact ⟨55, rest, by decide, by decide, hr⟩
    | false =>
      simp only [h7, Outcome.ok_bind, Bool.false_eq_true, if_false] at h
      unfold scanClassic at h
      cases hc : classicMagic mem with
      | error e => simp [hc] at h
      | undefined => simp [hc] at h
      | ok r =>
        clear h
        unfold classicMagic at hc
        have step : ∀ k, 49 ≤ k → k ≤ 55 → ∀ b, strncmpEq mem (magic k) = .ok b →
            b = true → ∃ k rest, 49 ≤ k ∧ k ≤ 55 ∧ mem = magic k ++ rest := by
          intro k h1 h2 b hb hbt
          subst hbt
          obtain ⟨rest, hr⟩ := strncmpEq_true mem _ hb
          exact ⟨k, rest, h1, h2, hr⟩
        cases e1 : strncmpEq mem (magic 49) with
        | error e => simp [e1] at hc
        | undefined => simp [e1] at hc
        | ok b1 =>
        cases b1 with
        | true => exact step 49 (by decide) (by decide) _ e1 rfl
        | false =>
        cases e2 : strncmpEq mem (magic 50) with
        | error e => simp [e1, e2] at hc
        | undefined => simp [e1, e2] at hc
        | ok b2 =>
        cases b2 with
        | true => exact step 50 (by decide) (by decide) _ e2 rfl
        | false =>
        cases e3 : strncmpEq mem (magic 51) with
        | error e => simp [e1, e2, e3] at hc
        | undefined => simp [e1, e2, e3] at hc
        | ok b3 =>
        cases b3 with
        | true => exact step 51 (by decide) (by decide) _ e3 rfl
        | false =>
        cases e4 : strncmpEq mem (magic 52) with
        | error e => simp [e1, e2, e3, e4] at hc
        | undefined => simp [e1, e2, e3, e4] at hc
        | ok b4 =>
        cases b4 with
        | true => exact step 52 (by decide) (by decide) _ e4 rfl
        | false =>
        cases e5 : strncmpEq mem (magic 53) with
        | error e => simp [e1, e2, e3, e4, e5] at hc
        | undefined => simp [e1, e2, e3, e4, e5] at hc
        | ok b5 =>
        cases b5 with
        | true => exact step 53 (by decide) (by decide) _ e5 rfl
        | false =>
        cases e6 : strncmpEq mem (magic 54) with
        | error e => simp [e1, e2, e3, e4, e5, e6] at hc
        | undefined => simp [e1, e2, e3, e4, e5, e6] at hc
        | ok b6 =>
        cases b6 with
        | true => exact step 54 (by decide) (by decide) _ e6 rfl
        | false => simp [e1, e2, e3, e4, e5, e6] at hc

/-- The constructor succeeds exactly when the scan succeeds and the checks pass. -/
theorem parse_ok_iff (mem : List Nat) (hd : HeaderPNM) :
    HeaderPNM.parse mem = .ok hd ↔
      ∃ s, HeaderPNM.scan mem = .ok s ∧ HeaderPNM.check s = .ok hd := by
  unfold HeaderPNM.parse
  cases hs : HeaderPNM.scan mem with
  | ok s => simp
  | error e => simp
  | undefined => simp

theorem seg_zero (b : Nat) (g : Nat → Nat) (image : List Nat) : Seg b 0 g image image :=
  ⟨rfl, fun _ h => absurd h (Nat.not_lt_zero _), fun _ _ => rfl⟩

theorem seg_store (b v : Nat) (image : List Nat) (hb : b < image.length) :
    Seg b 1 (fun _ => v) image (image.set b v) := by
  refine ⟨by simp, ?_, ?_⟩
  · intro j hj
    have : j = 0 := by omega
    subst this
    simp [List.getElem?_set, hb]
  · intro i hi
    have : b ≠ i := by omega
    simp [List.getElem?_set, this]

/-- One byte written at `b`, then `n` bytes from `b + 1`. -/
theorem seg_cons (b n v : Nat) (g : Nat → Nat) (image img1 img2 : List Nat)
    (h1 : Seg b 1 (fun _ => v) image img1) (h2 : Seg (b + 1) n g img1 img2) :
    Seg b (n + 1) (fun j => if j = 0 then v else g (j - 1)) image img2 := by
  obtain ⟨l1, w1, f1⟩ := h1
  obtain ⟨l2, w2, f2⟩ := h2
  refine ⟨l2.trans l1, ?_, ?_⟩
  · intro j hj
    by_cases h0 : j = 0
    · subst h0
      have := f2 (b + 0) (Or.inl (by omega))
      rw [this, w1 0 (by omega)]
      simp
    · have e : b + j = b + 1 + (j - 1) := by omega
      rw [e, w2 (j - 1) (by omega)]
      simp [h0]
  · intro i hi
    rw [f2 i (by omega), f1 i (by omega)]

theorem seg_congr (b n : Nat) (g g' : Nat → Nat) (image image' : List Nat)
    (h : Seg b n g image image') (hg : ∀ j, j < n → g j = g' j) : Seg b n g' image image' :=
  ⟨h.1, fun j hj => by rw [h.2.1 j hj, hg j hj], h.2.2⟩

theorem seg_memcpy (b xc : Nat) (p image : List Nat) (hp : xc ≤ p.length)
    (hb : b + xc ≤ image.length) :
    Seg b xc (fun j => p.getD j 0) image
      (image.take b ++ p.take xc ++ image.drop (b + xc)) := by
  have lt : (image.take b).length = b := by simp; omega
  have lp : (p.take xc).length = xc := by simp; omega
  refine ⟨by simp; omega, ?_, ?_⟩
  · intro j hj
    rw [List.append_assoc, List.getElem?_append_right (by omega), lt,
      List.getElem?_append_left (by omega)]
    have e : b + j - b = j := by omega
    rw [e, List.getElem?_take]
    simp only [hj, if_true]
    rw [List.getElem?_eq_getElem (by omega)]
    simp [List.getD_eq_getElem?_getD, List.getElem?_eq_getElem (show j < p.length by omega)]
  · intro i hi
    rcases hi with hi | hi
    · rw [List.append_assoc, List.getElem?_append_left (by omega), List.getElem?_take]
      simp [hi]
    · rw [List.getElem?_append_right (by simp; omega)]
      simp only [List.length_append, lt, lp, List.getElem?_drop]
      congr 1
      omega

theorem written_zero (stride xc y : Nat) (f : Nat → Nat → Nat) (image : List Nat) :
    Written stride xc y 0 f image image :=
  ⟨rfl, fun _ _ h => absurd h (Nat.not_lt_zero _), fun _ _ => rfl⟩

/-- One row written at row `y`, then `n` rows from row `y + 1`. -/
theorem written_cons (stride xc y n : Nat) (g : Nat → Nat) (f : Nat → Nat → Nat)
    (image img1 img2 : List Nat) (hxs : xc ≤ stride)
    (h1 : Seg (y * stride) xc g image img1) (h2 : Written stride xc (y + 1) n f img1 img2) :
    Written stride xc y (n + 1) (fun k j => if k = 0 then g j else f (k - 1) j) image img2 := by
  obtain ⟨l1, w1, f1⟩ := h1
  obtain ⟨l2, w2, f2⟩ := h2
  have hrow : ∀ k, (y + 1 + k) * stride = y * stride + stride + k * stride := by
    intro k; rw [Nat.add_mul, Nat.add_mul]; omega
  refine ⟨l2.trans l1, ?_, ?_⟩
  · intro k j hk hj
    by_cases h0 : k = 0
    · subst h0
      have := f2 ((y + 0) * stride + j) (by
        intro k' _
        left
        rw [hrow k']
        simp only [Nat.add_zero]
        omega)
      rw [this]
      simp only [Nat.add_zero, if_true]
      exact w1 j hj
    · have e : y + k = y + 1 + (k - 1) := by omega
      rw [e, w2 (k - 1) j (by omega) hj]
      simp [h0]
  · intro i hi
    rw [f2 i (fun k' hk' => by
      have := hi (k' + 1) (by omega)
      have e : y + (k' + 1) = y + 1 + k' := by omega
      rw [e] at this
      exact this)]
    apply f1 i
    have := hi 0 (by omega)
    simpa using this

theorem written_congr (stride xc y n : Nat) (f f' : Nat → Nat → Nat) (image image' : List Nat)
    (h : Written stride xc y n f image image')
    (hf : ∀ k j, k < n → j < xc → f k j = f' k j) : Written stride xc y n f' image image' :=
  ⟨h.1, fun k j hk hj => by rw [h.2.1 k j hk hj, hf k j hk hj], h.2.2⟩

theorem getD_drop (p : List Nat) (a i : Nat) : (p.drop a).getD i 0 = p.getD (a + i) 0 := by
  simp [List.getD_eq_getElem?_getD, List.getElem?_drop]

/-- The rows copied by `memcpy`: byte `j` of row `y + k` is byte `k * xc + j` of the source. -/
theorem copyRows_written (stride xc : Nat) (hxs : xc ≤ stride) :
    ∀ (n y : Nat) (p image : List Nat), n * xc ≤ p.length → (y + n) * stride ≤ image.length →
      ∃ img, copyRows stride (xc : Int) n y p image = .ok img ∧
        Written stride xc y n (fun k j => p.getD (k * xc + j) 0) image img := by
  intro n
  induction n with
  | zero =>
    intro y p image _ _
    exact ⟨image, rfl, written_zero _ _ _ _ _⟩
  | succ n ih =>
    intro y p image hp himg
    have e1 : (n + 1) * xc = n * xc + xc := Nat.succ_mul n xc
    have e2 : (y + (n + 1)) * stride = y * stride + n * stride + stride := by
      rw [Nat.add_mul, Nat.succ_mul]; omega
    have hxp : xc ≤ p.length := by omega
    have hbi : y * stride + xc ≤ image.length := by omega
    have hseg := seg_memcpy (y * stride) xc p image hxp hbi
    obtain ⟨img, hrun, hw⟩ := ih (y + 1) (p.drop xc)
      (image.take (y * stride) ++ p.take xc ++ image.drop (y * stride + xc))
      (by simp; omega)
      (by
        rw [hseg.1]
        have : (y + 1 + n) * stride = y * stride + n * stride + stride := by
          rw [Nat.add_mul, Nat.add_mul]; omega
        omega)
    refine ⟨img, ?_, ?_⟩
    · simp only [copyRows, memcpy, Int.toNat_ofNat, Int.ofNat_nonneg, hxp, hbi, and_self,
        if_true, Outcome.ok_bind]
      exact hrun
    · apply written_congr _ _ _ _ _ _ _ _ (written_cons stride xc y n _ _ _ _ _ hxs hseg hw)
      intro k j _ _
      by_cases h0 : k = 0
      · simp [h0]
      · simp only [h0, if_false, getD_drop]
        congr 1
        have : k = (k - 1) + 1 := by omega
        rw [this, Nat.succ_mul]
        simp
        omega

theorem format_bytes_of_channels (c : Nat) (f : Format) (h : formatOfChannels (c : Int) = .ok f) :
    f.bytes = c := by
  unfold formatOfChannels at h
  by_cases c1 : (c : Int) = 1
  · simp [c1] at h; subst h; have : c = 1 := by omega
    simp [Format.bytes, Format.bits, this]
  by_cases c2 : (c : Int) = 2
  · simp [c2] at h; subst h; have : c = 2 := by omega
    simp [Format.bytes, Format.bits, this]
  by_cases c3 : (c : Int) = 3
  · simp [c3] at h; subst h; have : c = 3 := by omega
    simp [Format.bytes, Format.bits, this]
  by_cases c4 : (c : Int) = 4
  · simp [c4] at h; subst h; have : c = 4 := by omega
    simp [Format.bytes, Format.bits, this]
  · simp [c1, c2, c3, c4] at h

/-- A destination of the format of the header, at least as wide and as high as the image,
has room for the rows of the image. -/
theorem dest_room (hd : HeaderPNM) (dest : Surface) (w h c : Nat)
    (hw : hd.width = w) (hh : hd.height = h) (hc : hd.channels = c)
    (hfmt : formatOfChannels hd.channels = .ok hd.format)
    (hdf : dest.format = hd.format) (hdw : hd.width ≤ dest.width) (hdh : hd.height ≤ dest.height)
    (hdest : dest.Holds) :
    w * c ≤ dest.stride ∧ (0 + h) * dest.stride ≤ dest.image.length := by
  obtain ⟨h0w, h0h, hrow, hall⟩ := hdest
  rw [hc] at hfmt
  have hb : dest.format.bytes = c := by rw [hdf]; exact format_bytes_of_channels c _ hfmt
  rw [hb] at hrow
  have h1 : w ≤ dest.width.toNat := by omega
  have h2 : h ≤ dest.height.toNat := by omega
  have h3 : w * c ≤ dest.width.toNat * c := Nat.mul_le_mul_right c h1
  have h4 : h * dest.stride ≤ dest.height.toNat * dest.stride := Nat.mul_le_mul_right _ h2
  constructor
  · omega
  · simp only [Nat.zero_add]; omega

theorem intMul_nat (a b : Nat) (h : a * b ≤ 2147483647) :
    intMul (a : Int) (b : Int) = .ok ((a * b : Nat) : Int) := by
  have h1 : INT_MIN ≤ (a : Int) * (b : Int) := by
    have : (0 : Int) ≤ (a : Int) * (b : Int) := by positivity
    simp only [INT_MIN]; omega
  have h2 : (a : Int) * (b : Int) ≤ INT_MAX := by
    have : ((a * b : Nat) : Int) ≤ 2147483647 := by exact_mod_cast h
    simp only [INT_MAX]
    push_cast at this
    exact this
  simp [intMul, h1, h2]

theorem index_in_rows (y x h xc : Nat) (hy : y < h) (hx : x < xc) : y * xc + x < h * xc := by
  have : (y + 1) * xc ≤ h * xc := Nat.mul_le_mul_right xc hy
  rw [Nat.succ_mul] at this
  omega

theorem u8_nat (n : Nat) : u8 (n : Int) = n % 256 := by
  unfold u8
  have : ((n : Int) % 256) = ((n % 256 : Nat) : Int) := by omega
  rw [this, Int.toNat_ofNat]

/-- The expression `u8(value * 255 / maxvalue)` on a value and a maxvalue that are not
negative, without overflow. -/
theorem rescale_nat (v m : Nat) (hm : 0 < m) (hv : v * 255 ≤ 2147483647) :
    rescale (v : Int) (m : Int) = .ok ((v * 255 / m) % 256) := by
  have hq : ((v : Int) * 255).tdiv (m : Int) = ((v * 255 / m : Nat) : Int) := by
    rw [Int.ofNat_tdiv]; push_cast; rfl
  have hle : v * 255 / m ≤ v * 255 := Nat.div_le_self _ _
  have hm0 : (m : Int) ≠ 0 := by omega
  have h1 : INT_MIN ≤ (v : Int) * 255 ∧ (v : Int) * 255 ≤ INT_MAX := by
    simp only [INT_MIN, INT_MAX]; omega
  have h2 : INT_MIN ≤ ((v * 255 / m : Nat) : Int) ∧ ((v * 255 / m : Nat) : Int) ≤ INT_MAX := by
    generalize v * 255 / m = q at hle
    simp only [INT_MIN, INT_MAX]; omega
  simp only [rescale, intMul, h1, and_self, if_true, Outcome.ok_bind, intDiv, hm0, if_false, hq,
    h2, Outcome.pure_eq, u8_nat]

theorem wideRow_seg (m base : Nat) (hm : 0 < m) :
    ∀ (n x : Nat) (e image : List Nat), 2 * n ≤ e.length → (∀ b ∈ e, b < 256) →
      base + x + n ≤ image.length →
      ∃ img, wideRow (m : Int) base n x e image = .ok (e.drop (2 * n), img) ∧
        Seg (base + x) n (wideSample m e) image img := by
  intro n
  induction n with
  | zero =>
    intro x e image _ _ _
    exact ⟨image, rfl, seg_zero _ _ _⟩
  | succ n ih =>
    intro x e image hlen hbytes himg
    match e, hlen, hbytes with
    | hi :: lo :: e', hlen, hbytes =>
      have hhi : hi < 256 := hbytes hi (by simp)
      have hlo : lo < 256 := hbytes lo (by simp)
      have hb' : ∀ b ∈ e', b < 256 := fun b hb => hbytes b (by simp [hb])
      have hv : (hi * 256 + lo) * 255 ≤ 2147483647 := by omega
      have hst : base + x < image.length := by omega
      obtain ⟨img, hrun, hseg⟩ := ih (x + 1) e' (image.set (base + x) ((hi * 256 + lo) * 255 / m % 256))
        (by simp at hlen; omega) hb' (by simp; omega)
      refine ⟨img, ?_, ?_⟩
      · simp only [wideRow, read16, Outcome.ok_bind, rescale_nat _ m hm hv, store, hst, if_true]
        rw [hrun]
        congr 2
      · have h1 := seg_store (base + x) ((hi * 256 + lo) * 255 / m % 256) image hst
        rw [show base + (x + 1) = base + x + 1 by omega] at hseg
        apply seg_congr _ _ _ _ _ _ (seg_cons _ _ _ _ _ _ _ h1 hseg)
        intro j _
        by_cases h0 : j = 0
        · simp [h0, wideSample]
        · obtain ⟨i, rfl⟩ : ∃ i, j = i + 1 := ⟨j - 1, by omega⟩
          have e1 : 2 * (i + 1) = 2 * i + 1 + 1 := by omega
          simp only [h0, if_false, wideSample, e1, Nat.add_sub_cancel, List.getD_cons_succ]

/-- The rows of 16-bit samples: byte `j` of row `y + k` comes from the pair `k * xc + j`. -/
theorem wideRows_written (m stride xc : Nat) (hm : 0 < m) (hxs : xc ≤ stride) :
    ∀ (n y : Nat) (e image : List Nat), 2 * (n * xc) ≤ e.length → (∀ b ∈ e, b < 256) →
      (y + n) * stride ≤ image.length →
      ∃ img, wideRows (m : Int) stride xc n y e image = .ok img ∧
        Written stride xc y n (fun k j => wideSample m e (k * xc + j)) image img := by
  intro n
  induction n with
  | zero =>
    intro y e image _ _ _
    exact ⟨image, rfl, written_zero _ _ _ _ _⟩
  | succ n ih =>
    intro y e image hlen hbytes himg
    have e1 : (n + 1) * xc = n * xc + xc := Nat.succ_mul n xc
    have e2 : (y + (n + 1)) * stride = y * stride + n * stride + stride := by
      rw [Nat.add_mul, Nat.succ_mul]; omega
    obtain ⟨img1, hrow, hseg⟩ := wideRow_seg m (y * stride) hm xc 0 e image (by omega) hbytes
      (by omega)
    have hb' : ∀ b ∈ e.drop (2 * xc), b < 256 := fun b hb => hbytes b (List.mem_of_mem_drop hb)
    obtain ⟨img, hrun, hw⟩ := ih (y + 1) (e.drop (2 * xc)) img1 (by simp; omega) hb'
      (by
        rw [hseg.1]
        have : (y + 1 + n) * stride = y * stride + n * stride + stride := by
          rw [Nat.add_mul, Nat.add_mul]; omega
        omega)
    refine ⟨img, ?_, ?_⟩
    · simp only [wideRows, hrow, Outcome.ok_bind]
      exact hrun
    · simp only [Nat.add_zero] at hseg
      apply written_congr _ _ _ _ _ _ _ _ (written_cons stride xc y n _ _ _ _ _ hxs hseg hw)
      intro k j _ _
      by_cases h0 : k = 0
      · simp [h0]
      · simp only [h0, if_false, wideSample, getD_drop]
        obtain ⟨i, rfl⟩ : ∃ i, k = i + 1 := ⟨k - 1, by omega⟩
        have e0 : (i + 1) * xc = i * xc + xc := Nat.succ_mul i xc
        have e3 : 2 * xc + 2 * (i * xc + j) = 2 * ((i + 1) * xc + j) := by omega
        have e4 : 2 * xc + (2 * (i * xc + j) + 1) = 2 * ((i + 1) * xc + j) + 1 := by omega
        simp only [Nat.add_sub_cancel, e3, e4]

theorem tokensText_append (a b : List (List Nat × Nat)) :
    tokensText (a ++ b) = tokensText a ++ tokensText b := by
  induction a with
  | nil => rfl
  | cons t rest ih =>
    obtain ⟨ds, ws⟩ := t
    simp [tokensText, ih]

theorem digitValue_of_isspace (c : Nat) (h : isspace c = true) : digitValue 10 c = none := by
  simp only [isspace, Bool.or_eq_true, beq_iff_eq, Bool.and_eq_true, decide_eq_true_eq] at h
  have h1 : ¬ (48 ≤ c ∧ c ≤ 57) := by omega
  simp [digitValue, h1]

theorem atoi_token (ds : List Nat) (hds : IsDigits ds) (hv : decimalValue ds ≤ 2147483647)
    (ws : Nat) (hws : isspace ws = true) (r : List Nat) :
    atoi (decimalText ds ++ ws :: r) = .ok (decimalValue ds : Int) := by
  obtain ⟨hne, hlt⟩ := hds
  match ds, hne, hlt, hv with
  | d :: t, _, hlt, hv =>
    have hd : d < 10 := hlt d (List.mem_cons_self _ _)
    have h1 := scanDigits_decimal (d :: t) hlt 0 ws r (digitValue_of_isspace ws hws)
    simp only [decimalText, List.map_cons, List.cons_append] at h1
    have h45 : d + 48 ≠ 45 := by omega
    have h43 : d + 48 ≠ 43 := by omega
    simp only [decimalValue] at hv ⊢
    have hr : INT_MIN ≤ ((decimalFrom 0 (d :: t) : Nat) : Int)
        ∧ ((decimalFrom 0 (d :: t) : Nat) : Int) ≤ INT_MAX := by
      generalize decimalFrom 0 (d :: t) = q at hv
      simp only [INT_MIN, INT_MAX]; omega
    simp [atoi, decimalText, skipSpace, isspace_digit hd, scanSign, h45, h43, h1, toInt, hr]

theorem skipToSpace_token (ds : List Nat) (hlt : ∀ d ∈ ds, d < 10) (ws : Nat)
    (hws : isspace ws = true) (r : List Nat) :
    skipToSpace (decimalText ds ++ ws :: r) = .ok r := by
  induction ds with
  | nil => simp [decimalText, skipToSpace, hws]
  | cons d t ih =>
    have hd : d < 10 := hlt d (List.mem_cons_self _ _)
    have ht : ∀ x ∈ t, x < 10 := fun x hx => hlt x (List.mem_cons_of_mem _ hx)
    have := ih ht
    simp only [decimalText, List.map_cons, List.cons_append, skipToSpace, isspace_digit hd] at this ⊢
    simpa using this

theorem tokensText_length_pos (toks : List (List Nat × Nat)) (h : toks ≠ []) :
    0 < (tokensText toks).length := by
  match toks, h with
  | (ds, ws) :: rest, _ => simp [tokensText]

/-- A pixel text that has a token begins with a digit, not with `#`. -/
theorem startsLine_tokens (m : Nat) (toks : List (List Nat × Nat)) (post : List Nat)
    (hsome : toks ≠ []) (htok : ∀ t ∈ toks, TokenOk m t) :
    StartsLine (tokensText toks ++ post) := by
  match toks, hsome, htok with
  | (ds, ws) :: rest, _, htok =>
    obtain ⟨⟨hne, hlt⟩, _, _⟩ := htok (ds, ws) (List.mem_cons_self _ _)
    match ds, hne, hlt with
    | d :: t, _, hlt =>
      have hd : d < 10 := hlt d (List.mem_cons_self _ _)
      exact ⟨d + 48, decimalText t ++ ws :: (tokensText rest ++ post),
        by simp [tokensText, decimalText], by omega⟩

/-- The loop over `x` on a text of `toks.length` tokens followed by `rem`, when `rem` begins
at or after the end of the buffer's view or the loop is at its last column anyway. -/
theorem asciiRow_seg (memory : Memory) (m base : Nat) (hm : 0 < m) (hm2 : m ≤ 65535) :
    ∀ (toks : List (List Nat × Nat)) (x : Nat) (image rem : List Nat),
      (∀ t ∈ toks, TokenOk m t) → base + x + toks.length ≤ image.length →
      memory.address.length ≤ memory.size + rem.length →
      ∃ img, asciiRow memory (m : Int) base toks.length x (tokensText toks ++ rem) image =
          .ok (rem, img) ∧
        Seg (base + x) toks.length (fun j => asciiSample m (toks.getD j ([], 0))) image img := by
  intro toks
  induction toks with
  | nil =>
    intro x image rem _ _ _
    exact ⟨image, rfl, seg_zero _ _ _⟩
  | cons t rest ih =>
    intro x image rem htok himg hend
    obtain ⟨ds, ws⟩ := t
    obtain ⟨hds, hws, hval⟩ := htok (ds, ws) (List.mem_cons_self _ _)
    simp only at hds hws hval
    have hrest : ∀ t ∈ rest, TokenOk m t := fun t ht => htok t (List.mem_cons_of_mem _ ht)
    have hst : base + x < image.length := by simp at himg; omega
    have hv : decimalValue ds * 255 ≤ 2147483647 := by omega
    obtain ⟨img, hrun, hseg⟩ := ih (x + 1) (image.set (base + x) (decimalValue ds * 255 / m % 256))
      rem hrest (by simp at himg ⊢; omega) hend
    refine ⟨img, ?_, ?_⟩
    · simp only [List.length_cons, asciiRow, tokensText, List.append_assoc, List.cons_append,
        atoi_token ds hds (by omega) ws hws, Outcome.ok_bind, rescale_nat _ m hm hv, store, hst,
        if_true, skipToSpace_token ds hds.2 ws hws]
      by_cases hat : atEnd memory (tokensText rest ++ rem) = true
      · have hnil : rest = [] := by
          by_contra hne
          have := tokensText_length_pos rest hne
          simp only [atEnd, decide_eq_true_eq, List.length_append] at hat
          omega
        subst hnil
        simp only [hat, if_true, Outcome.pure_eq]
        simp only [List.length_nil, asciiRow, tokensText, List.nil_append] at hrun
        simp only [tokensText, List.nil_append]
        exact hrun
      · simp only [hat, Bool.false_eq_true, if_false]
        exact hrun
    · have h1 := seg_store (base + x) (decimalValue ds * 255 / m % 256) image hst
      rw [show base + (x + 1) = base + x + 1 by omega] at hseg
      apply seg_congr _ _ _ _ _ _ (seg_cons _ _ _ _ _ _ _ h1 hseg)
      intro j _
      by_cases h0 : j = 0
      · simp [h0, asciiSample]
      · obtain ⟨i, rfl⟩ : ∃ i, j = i + 1 := ⟨j - 1, by omega⟩
        simp

/-- The rows of ASCII samples: byte `j` of row `y + k` comes from the token `k * xc + j`. -/
theorem asciiRows_written (memory : Memory) (m stride xc : Nat) (hm : 0 < m) (hm2 : m ≤ 65535)
    (hxs : xc ≤ stride) :
    ∀ (n y : Nat) (toks : List (List Nat × Nat)) (image post : List Nat),
      toks.length = n * xc → (∀ t ∈ toks, TokenOk m t) → (y + n) * stride ≤ image.length →
      memory.address.length ≤ memory.size + post.length →
      ∃ img, asciiRows memory (m : Int) stride xc n y (tokensText toks ++ post) image = .ok img ∧
        Written stride xc y n (fun k j => asciiSample m (toks.getD (k * xc + j) ([], 0)))
          image img := by
  intro n
  induction n with
  | zero =>
    intro y toks image post _ _ _ _
    exact ⟨image, rfl, written_zero _ _ _ _ _⟩
  | succ n ih =>
    intro y toks image post hlen htok himg hend
    have e1 : (n + 1) * xc = n * xc + xc := Nat.succ_mul n xc
    have e2 : (y + (n + 1)) * stride = y * stride + n * stride + stride := by
      rw [Nat.add_mul, Nat.succ_mul]; omega
    have hsplit : toks = toks.take xc ++ toks.drop xc := (List.take_append_drop xc toks).symm
    have hlt : (toks.take xc).length = xc := by simp; omega
    have htake : ∀ t ∈ toks.take xc, TokenOk m t := fun t ht => htok t (List.mem_of_mem_take ht)
    have hdrop : ∀ t ∈ toks.drop xc, TokenOk m t := fun t ht => htok t (List.mem_of_mem_drop ht)
    obtain ⟨img1, hrow, hseg⟩ := asciiRow_seg memory m (y * stride) hm hm2 (toks.take xc) 0 image
      (tokensText (toks.drop xc) ++ post) htake (by omega) (by simp; omega)
    obtain ⟨img, hrun, hw⟩ := ih (y + 1) (toks.drop xc) img1 post (by simp; omega) hdrop
      (by
        rw [hseg.1]
        have : (y + 1 + n) * stride = y * stride + n * stride + stride := by
          rw [Nat.add_mul, Nat.add_mul]; omega
        omega)
      hend
    refine ⟨img, ?_, ?_⟩
    · have ht : tokensText toks ++ post =
          tokensText (toks.take xc) ++ (tokensText (toks.drop xc) ++ post) := by
        conv_lhs => rw [hsplit, tokensText_append]
        simp
      rw [hlt] at hrow
      simp only [asciiRows, ht, hrow, Outcome.ok_bind]
      exact hrun
    · simp only [Nat.add_zero, hlt] at hseg
      apply written_congr _ _ _ _ _ _ _ _ (written_cons stride xc y n _ _ _ _ _ hxs hseg hw)
      intro k j _ hj
      by_cases h0 : k = 0
      · simp only [h0, if_true, Nat.zero_mul, Nat.zero_add]
        congr 1
        simp [List.getD_eq_getElem?_getD, List.getElem?_take, hj]
      · obtain ⟨i, rfl⟩ : ∃ i, k = i + 1 := ⟨k - 1, by omega⟩
        have e0 : (i + 1) * xc = i * xc + xc := Nat.succ_mul i xc
        simp only [h0, if_false, Nat.add_sub_cancel]
        congr 1
        simp only [List.getD_eq_getElem?_getD, List.getElem?_drop]
        congr 2
        omega

theorem nextline_of_line (l : List Nat) (hl : 10 ∉ l) (X : List Nat) :
    nextline (l ++ 10 :: X) = nextline (10 :: X) := by
  induction l with
  | nil => rfl
  | cons a t ih =>
    have ha : a ≠ 10 := fun h => hl (by simp [h])
    have ht : 10 ∉ t := fun h => hl (List.mem_cons_of_mem _ h)
    have e : nextline (a :: (t ++ 10 :: X)) = nextline (t ++ 10 :: X) := by
      simp [nextline, ha]
    rw [List.cons_append, e]
    exact ih ht

/-- The function `nextline` steps over the comment lines that follow the line feed. -/
theorem nextline_comments (bodies : List (List Nat)) (hb : IsComments bodies) (Y : List Nat) :
    nextline (10 :: (commentLines bodies ++ Y)) = nextline (10 :: Y) := by
  induction bodies with
  | nil => rfl
  | cons b bs ih =>
    have hb1 : 10 ∉ (35 :: b) := by
      have := hb b (List.mem_cons_self _ _)
      simp only [List.mem_cons, not_or]
      exact ⟨by decide, this⟩
    have hbs : IsComments bs := fun x hx => hb x (List.mem_cons_of_mem _ hx)
    have e : commentLines (b :: bs) ++ Y = (35 :: b) ++ 10 :: (commentLines bs ++ Y) := by
      simp [commentLines]
    have e2 : ∀ p, nextline (10 :: 35 :: p) = nextline (35 :: p) := by
      intro p; simp [nextline]
    have := nextline_of_line (35 :: b) hb1 (commentLines bs ++ Y)
    rw [e, List.cons_append, e2, ← List.cons_append, this]
    exact ih hbs

theorem nextline_line_comments (l : List Nat) (hl : 10 ∉ l) (bodies : List (List Nat))
    (hb : IsComments bodies) (Y : List Nat) :
    nextline (l ++ 10 :: (commentLines bodies ++ Y)) = nextline (l ++ 10 :: Y) := by
  rw [nextline_of_line l hl, nextline_of_line l hl, nextline_comments bodies hb]

theorem startsLine_of_headerLine (l : List Nat) (hn : ∀ t, l ≠ 35 :: t) (Z : List Nat) :
    StartsLine (l ++ 10 :: Z) := by
  cases l with
  | nil => exact ⟨10, Z, rfl, by decide⟩
  | cons c t =>
    refine ⟨c, t ++ 10 :: Z, rfl, ?_⟩
    intro hc
    exact hn t (by rw [hc])

/-- From a line, over comment lines, to the header line that follows. -/
theorem nextline_to_headerLine (l : List Nat) (hl : 10 ∉ l) (bodies : List (List Nat))
    (hb : IsComments bodies) (l2 : List Nat) (hn : ∀ t, l2 ≠ 35 :: t) (Z : List Nat) :
    nextline (l ++ 10 :: (commentLines bodies ++ (l2 ++ 10 :: Z))) = .ok (l2 ++ 10 :: Z) := by
  rw [nextline_line_comments l hl bodies hb]
  exact nextline_skip l _ hl (startsLine_of_headerLine l2 hn Z)

theorem nextline_magic_comments (k : Nat) (hk : k ≠ 10) (bodies : List (List Nat))
    (hb : IsComments bodies) (Y : List Nat) :
    nextline (magic k ++ (commentLines bodies ++ Y)) = nextline (magic k ++ Y) := by
  have hl : 10 ∉ [80, k] := by
    simp only [List.mem_cons, List.mem_singleton, not_or]
    exact ⟨by decide, fun h => hk h.symm, by simp⟩
  exact nextline_line_comments [80, k] hl bodies hb Y

theorem strncmpEq_magic_indep (k j : Nat) (X Y : List Nat) :
    strncmpEq (magic k ++ X) (magic j) = strncmpEq (magic k ++ Y) (magic j) := by
  by_cases h : k = j <;> simp [strncmpEq, matchLiteral, magic, h]

theorem classicMagic_indep (k : Nat) (X Y : List Nat) :
    classicMagic (magic k ++ X) = classicMagic (magic k ++ Y) := by
  simp only [classicMagic, strncmpEq_magic_indep k _ X Y]

/-- Comment lines right after the magic line do not change the scan of the header. -/
theorem scan_magic_comments (k : Nat) (bodies : List (List Nat)) (hb : IsComments bodies)
    (X : List Nat) :
    HeaderPNM.scan (magic k ++ (commentLines bodies ++ X)) = HeaderPNM.scan (magic k ++ X) := by
  by_cases hk : k = 10
  · subst hk
    simp [HeaderPNM.scan, strncmpEq, matchLiteral, magic, scanClassic, classicMagic]
  · simp only [HeaderPNM.scan, scanPam, scanClassic,
      strncmpEq_magic_indep k 55 (commentLines bodies ++ X) X,
      classicMagic_indep k (commentLines bodies ++ X) X,
      nextline_magic_comments k hk bodies hb X]

theorem nextline_magic_headerLine (k : Nat) (hk : k ≠ 10) (l : List Nat)
    (hn : ∀ t, l ≠ 35 :: t) (Z : List Nat) :
    nextline (magic k ++ (l ++ 10 :: Z)) = .ok (l ++ 10 :: Z) := by
  have hl : 10 ∉ [80, k] := by
    simp only [List.mem_cons, List.mem_singleton, not_or]
    exact ⟨by decide, fun h => hk h.symm, by simp⟩
  exact nextline_skip [80, k] _ hl (startsLine_of_headerLine l hn Z)

/-- Comment lines between the dimension line and the maxvalue line do not change the scan
of a header of the classic dialect whose magic does not fix maxvalue. -/
theorem scanClassic_comments (k : Nat) (hk : k = 50 ∨ k = 51 ∨ k = 53 ∨ k = 54)
    (c1 : List (List Nat)) (h1 : IsComments c1)
    (ld lm : List Nat) (rd : Outcome (Option (Int × Int)))
    (hld : HeaderLine sscanf_i_i ld rd) (hlm : ∀ t, lm ≠ 35 :: t) (rest : List Nat) :
    scanClassic (magic k ++ (ld ++ 10 :: (commentLines c1 ++ (lm ++ 10 :: rest)))) =
      scanClassic (magic k ++ (ld ++ 10 :: (lm ++ 10 :: rest))) := by
  have hk10 : k ≠ 10 := by omega
  have hk2 : 49 ≤ k ∧ k ≤ 54 := by omega
  have hk3 : ¬ (k = 49 ∨ k = 52) := by omega
  obtain ⟨hl, hn, hs⟩ := hld
  simp only [scanClassic, classicMagic_eq k hk2, Outcome.ok_bind,
    nextline_magic_headerLine k hk10 ld hn, hs,
    nextline_to_headerLine ld hl c1 h1 lm hlm rest,
    nextline_skip ld _ hl (startsLine_of_headerLine lm hlm rest), hk3, if_false, if_true]

/-- Comment lines between the lines of a PAM header do not change its scan. -/
theorem scanPam_comments (c1 c2 c3 c4 c5 : List (List Nat))
    (h1 : IsComments c1) (h2 : IsComments c2) (h3 : IsComments c3) (h4 : IsComments c4)
    (h5 : IsComments c5)
    (lw lh ld lm lt : List Nat) (rw rh rd rm : Outcome (Option Int)) (rt : Outcome Bool)
    (hlw : HeaderLine (sscanf_key_i kWIDTH) lw rw) (hlh : HeaderLine (sscanf_key_i kHEIGHT) lh rh)
    (hld : HeaderLine (sscanf_key_i kDEPTH) ld rd) (hlm : HeaderLine (sscanf_key_i kMAXVAL) lm rm)
    (hlt : HeaderLine (sscanf_key_s kTUPLTYPE) lt rt) (rest : List Nat) :
    scanPam (magic 55 ++ (lw ++ 10 :: (commentLines c1 ++ (lh ++ 10 :: (commentLines c2 ++
        (ld ++ 10 :: (commentLines c3 ++ (lm ++ 10 :: (commentLines c4 ++ (lt ++ 10 ::
          (commentLines c5 ++ rest))))))))))) =
      scanPam (magic 55 ++ (lw ++ 10 :: (lh ++ 10 :: (ld ++ 10 :: (lm ++ 10 :: (lt ++ 10 ::
        rest)))))) := by
  obtain ⟨lw1, lw2, lw3⟩ := hlw
  obtain ⟨lh1, lh2, lh3⟩ := hlh
  obtain ⟨ld1, ld2, ld3⟩ := hld
  obtain ⟨lm1, lm2, lm3⟩ := hlm
  obtain ⟨lt1, lt2, lt3⟩ := hlt
  simp only [scanPam, nextline_magic_headerLine 55 (by decide) lw lw2, Outcome.ok_bind, lw3, lh3,
    ld3, lm3, lt3,
    nextline_to_headerLine lw lw1 c1 h1 lh lh2, nextline_to_headerLine lh lh1 c2 h2 ld ld2,
    nextline_to_headerLine ld ld1 c3 h3 lm lm2, nextline_to_headerLine lm lm1 c4 h4 lt lt2,
    nextline_line_comments lt lt1 c5 h5 rest,
    nextline_skip lw _ lw1 (startsLine_of_headerLine lh lh2 _),
    nextline_skip lh _ lh1 (startsLine_of_headerLine ld ld2 _),
    nextline_skip ld _ ld1 (startsLine_of_headerLine lm lm2 _),
    nextline_skip lm _ lm1 (startsLine_of_headerLine lt lt2 _)]

theorem not_comment_decimal (ds : List Nat) (hds : IsDecimal ds) (r : List Nat) :
    ∀ t, decimalText ds ++ r ≠ 35 :: t := by
  obtain ⟨hlt, d, u, rfl, _⟩ := hds
  have hd : d < 10 := hlt d (List.mem_cons_self _ _)
  intro t h
  simp only [decimalText, List.map_cons, List.cons_append, List.cons.injEq] at h
  omega

/-- A dimension line `w h` in decimal is a header line of `sscanf(p, "%i %i", ...)`. -/
theorem headerLine_dimension (w h : List Nat) (hw : IsDecimal w) (hh : IsDecimal h)
    (vw : (decimalValue w : Int) ≤ INT_MAX) (vh : (decimalValue h : Int) ≤ INT_MAX) :
    HeaderLine sscanf_i_i (decimalText w ++ 32 :: decimalText h)
      (.ok (some ((decimalValue w : Int), (decimalValue h : Int)))) := by
  refine ⟨?_, not_comment_decimal w hw _, ?_⟩
  · simp only [List.mem_append, List.mem_cons, not_or]
    exact ⟨lf_not_mem_decimalText w, by decide, lf_not_mem_decimalText h⟩
  · intro X
    have := sscanf_i_i_line w h hw hh vw vh X
    simpa using this

/-- A line `KEY v` with `v` in decimal is a header line of `sscanf(p, "KEY %i", ...)`. -/
theorem headerLine_key (key ds : List Nat) (hk : 10 ∉ key)
    (hn : ∀ r t, key ++ r ≠ 35 :: t) (hds : IsDecimal ds)
    (hv : (decimalValue ds : Int) ≤ INT_MAX) :
    HeaderLine (sscanf_key_i key) (key ++ 32 :: decimalText ds)
      (.ok (some (decimalValue ds : Int))) := by
  refine ⟨lf_not_mem_key_line key _ hk (lf_not_mem_decimalText ds), hn _, ?_⟩
  intro X
  have := sscanf_key_i_line key ds hds hv X
  simpa using this

/-- A line `TUPLTYPE word` is a header line of `sscanf(p, "TUPLTYPE %s", type)`. -/
theorem headerLine_tupltype (t : List Nat) (ht : IsWord t) :
    HeaderLine (sscanf_key_s kTUPLTYPE) (kTUPLTYPE ++ 32 :: t) (.ok true) := by
  refine ⟨lf_not_mem_key_line kTUPLTYPE _ (by decide) (lf_not_mem_word t ht), ?_, ?_⟩
  · intro u h
    simp [kTUPLTYPE] at h
  · intro X
    have := sscanf_key_s_line kTUPLTYPE t ht X
    simpa using this

theorem matchLiteral_not_start (key : List Nat) (hk : 10 ∉ key) :
    ∀ (l Y : List Nat), (¬ ∃ t, l = key ++ t) → matchLiteral key (l ++ 10 :: Y) = .ok none := by
  induction key with
  | nil => intro l Y h; exact absurd ⟨l, rfl⟩ h
  | cons d kt ih =>
    intro l Y h
    have hd : (10 : Nat) ≠ d := fun e => hk (by simp [e])
    have hkt : 10 ∉ kt := fun e => hk (List.mem_cons_of_mem _ e)
    cases l with
    | nil => simp [matchLiteral, hd]
    | cons c l' =>
      by_cases hc : c = d
      · subst hc
        have h' : ¬ ∃ t, l' = kt ++ t := by
          rintro ⟨t, rfl⟩
          exact h ⟨t, rfl⟩
        simp only [List.cons_append, matchLiteral, if_true]
        exact ih hkt l' Y h'
      · simp [matchLiteral, hc]

theorem skipSpace_spaces (ws s : List Nat) (hws : ∀ b ∈ ws, isspace b = true) :
    skipSpace (ws ++ s) = skipSpace s := by
  induction ws with
  | nil => rfl
  | cons b t ih =>
    have hb := hws b (List.mem_cons_self _ _)
    have ht : ∀ x ∈ t, isspace x = true := fun x hx => hws x (List.mem_cons_of_mem _ hx)
    simp only [List.cons_append, skipSpace, hb, if_true]
    exact ih ht

theorem skipSpace_notNumber (s : List Nat) (h : NotNumber s) : skipSpace s = .ok s := by
  obtain ⟨c, t, rfl, hc, _⟩ := h
  simp [skipSpace, hc]

theorem scan_i_notNumber (s : List Nat) (h : NotNumber s) : scan_i s = .ok none := by
  have hsk := skipSpace_notNumber s h
  obtain ⟨c, t, rfl, hc, hcase⟩ := h
  rcases hcase with ⟨h45, h43, hdig⟩ | ⟨hsign, c2, t2, rfl, hdig⟩
  · have h48 : c ≠ 48 := by
      intro e; rw [e] at hdig; simp [digitValue] at hdig
    simp [scan_i, hsk, scanSign, h45, h43, h48, hdig]
  · have h48 : c2 ≠ 48 := by
      intro e; rw [e] at hdig; simp [digitValue] at hdig
    rcases hsign with rfl | rfl <;> simp [scan_i, hsk, scanSign, h48, hdig]

/-- The directive `%i` fails on a text that has no integer at its front. -/
theorem scan_i_noInteger (s : List Nat) (h : NoInteger s) : scan_i s = .ok none := by
  obtain ⟨ws, s', rfl, hws, hn⟩ := h
  have h1 := scan_i_notNumber s' hn
  have h2 : skipSpace (ws ++ s') = .ok s' := by
    rw [skipSpace_spaces ws s' hws]; exact skipSpace_notNumber s' hn
  have h3 := skipSpace_notNumber s' hn
  unfold scan_i at h1 ⊢
  rw [h3] at h1
  rw [h2]
  exact h1

/-- The call `sscanf(p, "KEY %i", &v)` returns less than 1 on a line that does not carry the
key with its integer. -/
theorem sscanf_key_i_bad (key s : List Nat) (hk : 10 ∉ key) (h : BadKeyLine key s) :
    sscanf_key_i key s = .ok none := by
  rcases h with ⟨l, Y, rfl, _, hnot⟩ | ⟨r, rfl, hno⟩
  · simp [sscanf_key_i, matchLiteral_not_start key hk l Y hnot]
  · obtain ⟨ws, s', rfl, hws, hn⟩ := hno
    have h2 : skipSpace (ws ++ s') = .ok s' := by
      rw [skipSpace_spaces ws s' hws]; exact skipSpace_notNumber s' hn
    simp [sscanf_key_i, matchLiteral_self, h2, scan_i_notNumber s' hn]

theorem overwrite_nil (image : List Nat) (off : Nat) : overwrite image off [] = image := by
  simp [overwrite]

theorem overwrite_length (image : List Nat) (off : Nat) (vals : List Nat)
    (h : off + vals.length ≤ image.length) : (overwrite image off vals).length = image.length := by
  simp [overwrite]; omega

theorem overwrite_set (image : List Nat) (off v : Nat) (vs : List Nat) (h : off < image.length) :
    overwrite (image.set off v) (off + 1) vs = overwrite image off (v :: vs) := by
  have hl : (image.take off).length = off := by simp; omega
  have e1 : (image.set off v).take (off + 1) = image.take off ++ [v] := by
    rw [List.set_eq_take_append_cons_drop]
    simp only [h, if_true]
    have := @List.take_append Nat (image.take off) (v :: image.drop (off + 1)) 1
    rw [hl] at this
    rw [this]
    simp
  have e2 : (image.set off v).drop (off + 1 + vs.length) = image.drop (off + (v :: vs).length) := by
    rw [List.drop_set]
    have hlt : off < off + 1 + vs.length := by omega
    simp only [hlt, if_true, List.length_cons]
    congr 1
    omega
  unfold overwrite
  rw [e1, e2]
  simp

theorem overwrite_single (image : List Nat) (off v : Nat) (h : off < image.length) :
    image.set off v = overwrite image off [v] := by
  have := overwrite_set image off v [] h
  rw [← this]
  simp [overwrite]

theorem asciiRowSamples_length (memory : Memory) (m : Int) :
    ∀ (n : Nat) (p p' vs : List Nat), asciiRowSamples memory m n p = .ok (p', vs) →
      vs.length ≤ n := by
  intro n
  induction n with
  | zero =>
    intro p p' vs h
    simp only [asciiRowSamples, Outcome.ok.injEq, Prod.mk.injEq] at h
    rw [← h.2]; simp
  | succ n ih =>
    intro p p' vs h
    simp only [asciiRowSamples] at h
    cases h1 : atoi p with
    | error e => simp [h1] at h
    | undefined => simp [h1] at h
    | ok value =>
      cases h2 : rescale value m with
      | error e => simp [h1, h2] at h
      | undefined => simp [h1, h2] at h
      | ok v =>
        cases h3 : skipToSpace p with
        | error e => simp [h1, h2, h3] at h
        | undefined => simp [h1, h2, h3] at h
        | ok p1 =>
          by_cases hat : atEnd memory p1 = true
          · simp [h1, h2, h3, hat] at h
            rw [← h.2]; simp
          · cases h4 : asciiRowSamples memory m n p1 with
            | error e => simp [h1, h2, h3, hat, h4] at h
            | undefined => simp [h1, h2, h3, hat, h4] at h
            | ok r =>
              simp [h1, h2, h3, hat, h4] at h
              have := ih p1 r.1 r.2 (by rw [h4])
              rw [← h.2]
              simp
              omega

/-- The loop over `x` of the ASCII mode is its samples, put at the columns from `x` on. -/
theorem asciiRow_samples (memory : Memory) (m : Int) (base : Nat) :
    ∀ (n x : Nat) (p image : List Nat), base + x + n ≤ image.length →
      asciiRow memory m base n x p image =
        (asciiRowSamples memory m n p >>= fun r =>
          Outcome.ok (r.1, overwrite image (base + x) r.2)) := by
  intro n
  induction n with
  | zero =>
    intro x p image _
    simp [asciiRow, asciiRowSamples, overwrite_nil]
  | succ n ih =>
    intro x p image himg
    have hst : base + x < image.length := by omega
    simp only [asciiRow, asciiRowSamples]
    cases h1 : atoi p with
    | error e => simp
    | undefined => simp
    | ok value =>
      simp only [Outcome.ok_bind]
      cases h2 : rescale value m with
      | error e => simp
      | undefined => simp
      | ok v =>
        simp only [Outcome.ok_bind, store, hst, if_true]
        cases h3 : skipToSpace p with
        | error e => simp
        | undefined => simp
        | ok p1 =>
          simp only [Outcome.ok_bind]
          by_cases hat : atEnd memory p1 = true
          · simp [hat, overwrite_single image (base + x) v hst]
          · have := ih (x + 1) p1 (image.set (base + x) v) (by simp; omega)
            simp only [hat, Bool.false_eq_true, if_false, this]
            cases h4 : asciiRowSamples memory m n p1 with
            | error e => simp
            | undefined => simp
            | ok r =>
              simp only [Outcome.ok_bind, Outcome.pure_eq]
              rw [show base + (x + 1) = base + x + 1 by omega, overwrite_set _ _ _ _ hst]

theorem row_room (stride xc y n : Nat) (len : Nat) (hxs : xc ≤ stride)
    (h : (y + (n + 1)) * stride ≤ len) :
    y * stride + xc ≤ len ∧ (y + 1 + n) * stride ≤ len := by
  have e1 : (y + (n + 1)) * stride = y * stride + n * stride + stride := by
    rw [Nat.add_mul, Nat.succ_mul]; omega
  have e2 : (y + 1 + n) * stride = y * stride + n * stride + stride := by
    rw [Nat.add_mul, Nat.add_mul]; omega
  omega

/-- The loop over `y` of the ASCII mode is its samples, laid out row by row. -/
theorem asciiRows_samples (memory : Memory) (m : Int) (stride xc : Nat) (hxs : xc ≤ stride) :
    ∀ (n y : Nat) (p image : List Nat), (y + n) * stride ≤ image.length →
      asciiRows memory m stride xc n y p image =
        (asciiSamples memory m xc n p >>= fun rows =>
          Outcome.ok (layRows stride y rows image)) := by
  intro n
  induction n with
  | zero =>
    intro y p image _
    simp [asciiRows, asciiSamples, layRows]
  | succ n ih =>
    intro y p image himg
    obtain ⟨hrow, hrest⟩ := row_room stride xc y n image.length hxs himg
    have hr := asciiRow_samples memory m (y * stride) xc 0 p image (by omega)
    simp only [asciiRows, asciiSamples, hr]
    cases h1 : asciiRowSamples memory m xc p with
    | error e => simp
    | undefined => simp
    | ok r =>
      have hlen := asciiRowSamples_length memory m xc p r.1 r.2 (by rw [h1])
      have hl : (overwrite image (y * stride + 0) r.2).length = image.length :=
        overwrite_length _ _ _ (by omega)
      simp only [Outcome.ok_bind, ih (y + 1) r.1 _ (by rw [hl]; exact hrest)]
      cases h2 : asciiSamples memory m xc n r.1 with
      | error e => simp
      | undefined => simp
      | ok rs => simp [layRows]

/-- The loop of `memcpy` is its rows of bytes, laid out row by row. -/
theorem copyRows_samples (stride xc : Nat) (hxs : xc ≤ stride) :
    ∀ (n y : Nat) (p image : List Nat), (y + n) * stride ≤ image.length →
      copyRows stride (xc : Int) n y p image =
        (copySamples (xc : Int) n p >>= fun rows =>
          Outcome.ok (layRows stride y rows image)) := by
  intro n
  induction n with
  | zero =>
    intro y p image _
    simp [copyRows, copySamples, layRows]
  | succ n ih =>
    intro y p image himg
    obtain ⟨hrow, hrest⟩ := row_room stride xc y n image.length hxs himg
    simp only [copyRows, copySamples, memcpy, Int.toNat_ofNat, Int.ofNat_nonneg, true_and, hrow,
      and_true]
    by_cases hp : xc ≤ p.length
    · have hl : (List.take (y * stride) image ++ List.take xc p
          ++ List.drop (y * stride + xc) image).length = image.length := by
        simp; omega
      have hov : List.take (y * stride) image ++ List.take xc p
          ++ List.drop (y * stride + xc) image = overwrite image (y * stride) (p.take xc) := by
        simp [overwrite, Nat.min_eq_left hp]
      simp only [hp, if_true, Outcome.ok_bind, ih (y + 1) _ _ (by rw [hl]; exact hrest)]
      cases h2 : copySamples (xc : Int) n (List.drop xc p) with
      | error e => simp
      | undefined => simp
      | ok rs => simp [layRows, hov]
    · simp [hp]

theorem wideRowSamples_length (m : Int) :
    ∀ (n : Nat) (e e' vs : List Nat), wideRowSamples m n e = .ok (e', vs) → vs.length ≤ n := by
  intro n
  induction n with
  | zero =>
    intro e e' vs h
    simp only [wideRowSamples, Outcome.ok.injEq, Prod.mk.injEq] at h
    rw [← h.2]; simp
  | succ n ih =>
    intro e e' vs h
    simp only [wideRowSamples] at h
    cases h1 : read16 e with
    | error x => simp [h1] at h
    | undefined => simp [h1] at h
    | ok r1 =>
      simp only [h1, Outcome.ok_bind] at h
      cases h2 : rescale r1.1 m with
      | error x => simp [h2] at h
      | undefined => simp [h2] at h
      | ok v =>
        simp only [h2, Outcome.ok_bind] at h
        cases h4 : wideRowSamples m n r1.2 with
        | error x => simp [h4] at h
        | undefined => simp [h4] at h
        | ok r =>
          simp [h4] at h
          have := ih r1.2 r.1 r.2 (by rw [h4])
          rw [← h.2]
          simp
          omega

/-- The loop over `x` of the 16-bit mode is its samples, put at the columns from `x` on. -/
theorem wideRow_samples (m : Int) (base : Nat) :
    ∀ (n x : Nat) (e image : List Nat), base + x + n ≤ image.length →
      wideRow m base n x e image =
        (wideRowSamples m n e >>= fun r =>
          Outcome.ok (r.1, overwrite image (base + x) r.2)) := by
  intro n
  induction n with
  | zero =>
    intro x e image _
    simp [wideRow, wideRowSamples, overwrite_nil]
  | succ n ih =>
    intro x e image himg
    have hst : base + x < image.length := by omega
    simp only [wideRow, wideRowSamples]
    cases h1 : read16 e with
    | error x => simp
    | undefined => simp
    | ok r1 =>
      simp only [Outcome.ok_bind]
      cases h2 : rescale r1.1 m with
      | error x => simp
      | undefined => simp
      | ok v =>
        have := ih (x + 1) r1.2 (image.set (base + x) v) (by simp; omega)
        simp only [Outcome.ok_bind, store, hst, if_true, this]
        cases h4 : wideRowSamples m n r1.2 with
        | error x => simp
        | undefined => simp
        | ok r =>
          simp only [Outcome.ok_bind, Outcome.pure_eq]
          rw [show base + (x + 1) = base + x + 1 by omega, overwrite_set _ _ _ _ hst]

/-- The loop over `y` of the 16-bit mode is its samples, laid out row by row. -/
theorem wideRows_samples (m : Int) (stride xc : Nat) (hxs : xc ≤ stride) :
    ∀ (n y : Nat) (e image : List Nat), (y + n) * stride ≤ image.length →
      wideRows m stride xc n y e image =
        (wideSamples m xc n e >>= fun rows =>
          Outcome.ok (layRows stride y rows image)) := by
  intro n
  induction n with
  | zero =>
    intro y e image _
    simp [wideRows, wideSamples, layRows]
  | succ n ih =>
    intro y e image himg
    obtain ⟨hrow, hrest⟩ := row_room stride xc y n image.length hxs himg
    have hr := wideRow_samples m (y * stride) xc 0 e image (by omega)
    simp only [wideRows, wideSamples, hr]
    cases h1 : wideRowSamples m xc e with
    | error x => simp
    | undefined => simp
    | ok r =>
      have hlen := wideRowSamples_length m xc e r.1 r.2 (by rw [h1])
      have hl : (overwrite image (y * stride + 0) r.2).length = image.length :=
        overwrite_length _ _ _ (by omega)
      simp only [Outcome.ok_bind, ih (y + 1) r.1 _ (by rw [hl]; exact hrest)]
      cases h2 : wideSamples m xc n r.1 with
      | error x => simp
      | undefined => simp
      | ok rs => simp [layRows]

theorem intMul_ok (a b x : Int) (h : intMul a b = .ok x) : x = a * b := by
  unfold intMul at h
  by_cases hr : INT_MIN ≤ a * b ∧ a * b ≤ INT_MAX
  · simp only [hr, and_self, if_true, Outcome.ok.injEq] at h
    exact h.symm
  · simp [hr] at h

/-- The method `decode_matching` is the samples of the source, laid out row by row from
offset (0, 0) in the surface it is given, whenever the surface has room for the rows. -/
theorem decode_matching_samples (it : Interface) (d : Surface) (w h c : Nat)
    (hw : it.m_header.width = w) (hh : it.m_header.height = h) (hc : it.m_header.channels = c)
    (hxs : w * c ≤ d.stride) (himg : h * d.stride ≤ d.image.length) :
    it.decode_matching d =
      (it.samples >>= fun rows =>
        Outcome.ok { d with image := layRows d.stride 0 rows d.image }) := by
  have himg0 : (0 + h) * d.stride ≤ d.image.length := by simpa using himg
  simp only [Interface.decode_matching, Interface.samples, hw, hh, hc, Int.toNat_ofNat]
  cases h1 : nextline it.m_header.data with
  | error e => simp
  | undefined => simp
  | ok p =>
    simp only [Outcome.ok_bind]
    cases h2 : intMul (w : Int) (c : Int) with
    | error e => simp
    | undefined => simp
    | ok x =>
      have hx : x = ((w * c : Nat) : Int) := by
        rw [intMul_ok _ _ _ h2]; push_cast; rfl
      subst hx
      simp only [Outcome.ok_bind, Int.toNat_ofNat]
      by_cases ha : it.m_header.ascii = true
      · simp only [ha, if_true,
          asciiRows_samples it.m_memory it.m_header.maxvalue d.stride (w * c) hxs h 0 p d.image
            himg0]
        cases h3 : asciiSamples it.m_memory it.m_header.maxvalue (w * c) h p with
        | error e => simp
        | undefined => simp
        | ok rows => simp
      · by_cases hm : it.m_header.maxvalue ≤ 255
        · simp only [ha, Bool.false_eq_true, if_false, hm, if_true,
            copyRows_samples d.stride (w * c) hxs h 0 p d.image himg0]
          cases h3 : copySamples ((w * c : Nat) : Int) h p with
          | error e => simp
          | undefined => simp
          | ok rows => simp
        · simp only [ha, Bool.false_eq_true, if_false, hm,
            wideRows_samples it.m_header.maxvalue d.stride (w * c) hxs h 0 p d.image himg0]
          cases h3 : wideSamples it.m_header.maxvalue (w * c) h p with
          | error e => simp
          | undefined => simp
          | ok rows => simp

/-- The temporary bitmap of the header has room for the rows of the image. -/
theorem bitmap_room (hd : HeaderPNM) (w h c : Nat) (junk : Nat → Nat)
    (hw : hd.width = w) (hh : hd.height = h) (hc : hd.channels = c)
    (hfmt : formatOfChannels hd.channels = .ok hd.format) :
    w * c ≤ (Bitmap.new hd.width hd.height hd.format junk).stride
    ∧ h * (Bitmap.new hd.width hd.height hd.format junk).stride ≤
        (Bitmap.new hd.width hd.height hd.format junk).image.length := by
  rw [hc] at hfmt
  have hb : hd.format.bytes = c := format_bytes_of_channels c _ hfmt
  simp [Bitmap.new, hw, hh, hb]

/-- Binary mode with maxvalue at most 255, for a header whose `data` is its last line,
a line feed and the pixel data `pix`, when `pix` does not begin with `#`: the first
`width * channels` bytes of row `y` of the destination become the bytes
`y * width * channels ...` of `pix`, as they are, and every other byte keeps its value. -/
theorem binary_rows_copied (it : Interface) (dest : Surface) (w h c : Nat)
    (line pix : List Nat)
    (hbin : it.m_header.ascii = false) (hmax : it.m_header.maxvalue ≤ 255)
    (hw : it.m_header.width = w) (hh : it.m_header.height = h) (hc : it.m_header.channels = c)
    (hfmt : formatOfChannels it.m_header.channels = .ok it.m_header.format)
    (hx : w * c ≤ 2147483647)
    (hdata : it.m_header.data = line ++ 10 :: pix) (hline : 10 ∉ line) (hstart : StartsLine pix)
    (hsrc : h * (w * c) ≤ pix.length)
    (hdf : dest.format = it.m_header.format) (hdw : it.m_header.width ≤ dest.width)
    (hdh : it.m_header.height ≤ dest.height) (hdest : dest.Holds) :
    ∃ img, it.decode_matching dest = .ok { dest with image := img }
      ∧ img.length = dest.image.length
      ∧ (∀ y x, y < h → x < w * c → img[y * dest.stride + x]? = pix[y * (w * c) + x]?)
      ∧ (∀ i, (∀ y, y < h → i < y * dest.stride ∨ y * dest.stride + w * c ≤ i) →
          img[i]? = dest.image[i]?) := by
  have hpix : nextline it.m_header.data = .ok pix := by
    rw [hdata]; exact nextline_skip line pix hline hstart
  obtain ⟨hxs, himg⟩ := dest_room it.m_header dest w h c hw hh hc hfmt hdf hdw hdh hdest
  obtain ⟨img, hrun, hlen, hrows, hframe⟩ :=
    copyRows_written dest.stride (w * c) hxs h 0 pix dest.image hsrc himg
  refine ⟨img, ?_, hlen, ?_, ?_⟩
  · simp only [Interface.decode_matching, hpix, Outcome.ok_bind, hw, hc, intMul_nat w c hx, hbin,
      Bool.false_eq_true, if_false, hmax, if_true, hh, Int.toNat_ofNat]
    rw [show ((w * c : Nat) : Int) = ((w : Int) * (c : Int)) by push_cast; rfl] at hrun
    simp only [Nat.cast_mul, hrun, Outcome.ok_bind]
    rfl
  · intro y x hy hx2
    have := hrows y x hy hx2
    simp only [Nat.zero_add] at this
    rw [this]
    have hlt : y * (w * c) + x < pix.length :=
      lt_of_lt_of_le (index_in_rows y x h (w * c) hy hx2) hsrc
    simp [List.getD_eq_getElem?_getD, List.getElem?_eq_getElem hlt]
  · intro i hi
    apply hframe
    intro k hk
    simpa using hi k hk

/-- Binary mode with maxvalue above 255, for a header whose `data` is its last line, a line
feed and the pixel data `pix`, when `pix` does not begin with `#`: the byte `x` of row `y`
of the destination becomes `s * 255 / maxvalue`, rounded down and cut to 8 bits, for the
big-endian pair `s` of index `y * width * channels + x` of `pix`. -/
theorem binary_wide_rescaled (it : Interface) (dest : Surface) (w h c m : Nat)
    (line pix : List Nat)
    (hbin : it.m_header.ascii = false) (hm : it.m_header.maxvalue = m) (hmax : 255 < m)
    (hw : it.m_header.width = w) (hh : it.m_header.height = h) (hc : it.m_header.channels = c)
    (hfmt : formatOfChannels it.m_header.channels = .ok it.m_header.format)
    (hx : w * c ≤ 2147483647)
    (hdata : it.m_header.data = line ++ 10 :: pix) (hline : 10 ∉ line) (hstart : StartsLine pix)
    (hbytes : ∀ b ∈ pix, b < 256)
    (hsrc : 2 * (h * (w * c)) ≤ pix.length)
    (hdf : dest.format = it.m_header.format) (hdw : it.m_header.width ≤ dest.width)
    (hdh : it.m_header.height ≤ dest.height) (hdest : dest.Holds) :
    ∃ img, it.decode_matching dest = .ok { dest with image := img }
      ∧ (∀ y x, y < h → x < w * c →
          img[y * dest.stride + x]? =
            some (((256 * pix.getD (2 * (y * (w * c) + x)) 0
                    + pix.getD (2 * (y * (w * c) + x) + 1) 0) * 255 / m) % 256))
      ∧ (∀ i, (∀ y, y < h → i < y * dest.stride ∨ y * dest.stride + w * c ≤ i) →
          img[i]? = dest.image[i]?) := by
  have hpix : nextline it.m_header.data = .ok pix := by
    rw [hdata]; exact nextline_skip line pix hline hstart
  obtain ⟨hxs, himg⟩ := dest_room it.m_header dest w h c hw hh hc hfmt hdf hdw hdh hdest
  obtain ⟨img, hrun, _, hrows, hframe⟩ :=
    wideRows_written m dest.stride (w * c) (by omega) hxs h 0 pix dest.image hsrc hbytes himg
  have hnot : ¬ ((m : Int) ≤ 255) := by omega
  refine ⟨img, ?_, ?_, ?_⟩
  · simp only [Interface.decode_matching, hpix, Outcome.ok_bind, hw, hc, intMul_nat w c hx, hbin,
      Bool.false_eq_true, if_false, hm, hnot, hh, Int.toNat_ofNat, hrun]
    rfl
  · intro y x hy hx2
    have := hrows y x hy hx2
    simp only [Nat.zero_add, wideSample] at this
    rw [this, Nat.mul_comm 256]
  · intro i hi
    apply hframe
    intro k hk
    simpa using hi k hk

/-- The exceptions of the four keys of a PAM header. `s1` is the text at the line expected
to carry WIDTH (where `nextline` arrives from the magic line, comment lines skipped), `s2`,
`s3`, `s4` the same for HEIGHT, DEPTH and MAXVAL. When the text at one of these lines does
not begin with its key, or no integer follows the key, the keys before it being read, the
constructor throws the exception of that key. -/
theorem pam_key_errors_thrown (X s1 : List Nat) (hs1 : nextline (magic 55 ++ X) = .ok s1) :
    (BadKeyLine kWIDTH s1 → HeaderPNM.parse (magic 55 ++ X) = .error .incorrectWidth)
    ∧ (∀ w s2, sscanf_key_i kWIDTH s1 = .ok (some w) → nextline s1 = .ok s2 →
        (BadKeyLine kHEIGHT s2 → HeaderPNM.parse (magic 55 ++ X) = .error .incorrectHeight)
        ∧ (∀ h s3, sscanf_key_i kHEIGHT s2 = .ok (some h) → nextline s2 = .ok s3 →
            (BadKeyLine kDEPTH s3 → HeaderPNM.parse (magic 55 ++ X) = .error .incorrectDepth)
            ∧ (∀ d s4, sscanf_key_i kDEPTH s3 = .ok (some d) → nextline s3 = .ok s4 →
                BadKeyLine kMAXVAL s4 →
                HeaderPNM.parse (magic 55 ++ X) = .error .incorrectMaxval))) := by
  have hp : HeaderPNM.parse (magic 55 ++ X) =
      (scanPam (magic 55 ++ X)).bind HeaderPNM.check := by
    simp only [HeaderPNM.parse, HeaderPNM.scan, strncmpEq_magic7, Outcome.ok_bind, if_true]
    rfl
  refine ⟨?_, ?_⟩
  · intro hbad
    rw [hp]
    simp only [scanPam, hs1, Outcome.ok_bind, sscanf_key_i_bad kWIDTH s1 (by decide) hbad]
    rfl
  intro w s2 hw hs2
  refine ⟨?_, ?_⟩
  · intro hbad
    rw [hp]
    simp only [scanPam, hs1, Outcome.ok_bind, hw, hs2,
      sscanf_key_i_bad kHEIGHT s2 (by decide) hbad]
    rfl
  intro h s3 hh hs3
  refine ⟨?_, ?_⟩
  · intro hbad
    rw [hp]
    simp only [scanPam, hs1, Outcome.ok_bind, hw, hs2, hh, hs3,
      sscanf_key_i_bad kDEPTH s3 (by decide) hbad]
    rfl
  intro d s4 hd hs4 hbad
  rw [hp]
  simp only [scanPam, hs1, Outcome.ok_bind, hw, hs2, hh, hs3, hd, hs4,
    sscanf_key_i_bad kMAXVAL s4 (by decide) hbad]
  rfl

end Pnm

open Pnm

/-! ## The claims -/

/-- C1: for each of the seven magics a minimal header of width 4 and height 4 parses to
the fields of the format table: P1 and P4 give channels 1 and maxvalue 1 and stay on the
dimension line (no maxvalue line is consumed, whatever follows), P2, P3, P5 and P6 give
channels 1, 3, 1 and 3 and the maxvalue written on the maxvalue line, P7 gives channels
from DEPTH and maxvalue from MAXVAL; P1 to P3 are ascii and P4 to P7 are binary. -/
theorem C1_magic_table (ds : List Nat) (hds : IsDecimal ds)
    (hm : 1 ≤ decimalValue ds ∧ decimalValue ds ≤ 65535)
    (d : Nat) (hd : 1 ≤ d ∧ d ≤ 4) (f : Format) (hf : formatOfChannels d = .ok f)
    (t : List Nat) (ht : IsWord t) (rest : List Nat) :
    HeaderPNM.parse (ascii "P1\n4 4\n" ++ rest) =
      .ok { width := 4, height := 4, channels := 1, maxvalue := 1,
            format := .luminance 8 0xff 0, ascii := true, data := ascii "4 4\n" ++ rest }
    ∧ HeaderPNM.parse (ascii "P2\n4 4\n" ++ decimalText ds ++ 10 :: rest) =
      .ok { width := 4, height := 4, channels := 1, maxvalue := decimalValue ds,
            format := .luminance 8 0xff 0, ascii := true, data := decimalText ds ++ 10 :: rest }
    ∧ HeaderPNM.parse (ascii "P3\n4 4\n" ++ decimalText ds ++ 10 :: rest) =
      .ok { width := 4, height := 4, channels := 3, maxvalue := decimalValue ds,
            format := .components 24 .UNORM .RGB 8 8 8 0, ascii := true,
            data := decimalText ds ++ 10 :: rest }
    ∧ HeaderPNM.parse (ascii "P4\n4 4\n" ++ rest) =
      .ok { width := 4, height := 4, channels := 1, maxvalue := 1,
            format := .luminance 8 0xff 0, ascii := false, data := ascii "4 4\n" ++ rest }
    ∧ HeaderPNM.parse (ascii "P5\n4 4\n" ++ decimalText ds ++ 10 :: rest) =
      .ok { width := 4, height := 4, channels := 1, maxvalue := decimalValue ds,
            format := .luminance 8 0xff 0, ascii := false, data := decimalText ds ++ 10 :: rest }
    ∧ HeaderPNM.parse (ascii "P6\n4 4\n" ++ decimalText ds ++ 10 :: rest) =
      .ok { width := 4, height := 4, channels := 3, maxvalue := decimalValue ds,
            format := .components 24 .UNORM .RGB 8 8 8 0, ascii := false,
            data := decimalText ds ++ 10 :: rest }
    ∧ HeaderPNM.parse (ascii "P7\nWIDTH 4\nHEIGHT 4\nDEPTH " ++ decimalText [d]
          ++ ascii "\nMAXVAL " ++ decimalText ds ++ ascii "\nTUPLTYPE " ++ t
          ++ ascii "\nENDHDR\n" ++ rest) =
      .ok { width := 4, height := 4, channels := d, maxvalue := decimalValue ds,
            format := f, ascii := false, data := ascii "ENDHDR\n" ++ rest } := by
  have hv : (decimalValue ds : Int) ≤ INT_MAX := by
    have := hm.2
    simp only [INT_MAX]; omega
  have h1 : ¬ ((decimalValue ds : Int) < 1) := by have := hm.1; omega
  have h2 : ¬ ((decimalValue ds : Int) > 65535) := by have := hm.2; omega
  have d4 : IsDecimal [4] := by decide
  have v4 : ((decimalValue [4] : Nat) : Int) ≤ INT_MAX := by decide
  have hbit : ∀ k, k = 49 ∨ k = 52 → HeaderPNM.parse (magic k ++ (decimalText [4] ++ 32 ::
      (decimalText [4] ++ 10 :: rest))) =
      .ok { width := 4, height := 4, channels := 1, maxvalue := 1,
            format := .luminance 8 0xff 0, ascii := decide (k ≤ 51),
            data := ascii "4 4\n" ++ rest } := by
    intro k hk
    have hk7 : k ≠ 55 := by omega
    simp only [HeaderPNM.parse, HeaderPNM.scan, strncmpEq_magic_ne k hk7, Outcome.ok_bind,
      scanClassic_bitmap k hk [4] [4] d4 d4 v4 v4 rest, HeaderPNM.check]
    simp [formatOfChannels, decimalValue, decimalFrom, decimalText, ascii]
  have hcl : ∀ k, k = 50 ∨ k = 51 ∨ k = 53 ∨ k = 54 → HeaderPNM.parse (magic k ++
      (decimalText [4] ++ 32 :: (decimalText [4] ++ 10 :: (decimalText ds ++ 10 :: rest)))) =
      .ok { width := 4, height := 4, channels := if k = 51 ∨ k = 54 then 3 else 1,
            maxvalue := decimalValue ds,
            format := if k = 51 ∨ k = 54 then .components 24 .UNORM .RGB 8 8 8 0
                      else .luminance 8 0xff 0,
            ascii := decide (k ≤ 51), data := decimalText ds ++ 10 :: rest } := by
    intro k hk
    have hk7 : k ≠ 55 := by omega
    simp only [HeaderPNM.parse, HeaderPNM.scan, strncmpEq_magic_ne k hk7, Outcome.ok_bind,
      scanClassic_lines k hk [4] [4] ds d4 d4 hds v4 v4 hv rest, HeaderPNM.check, h1, h2,
      or_self, Bool.false_eq_true, if_false]
    by_cases h3 : k = 51 ∨ k = 54 <;> simp [h3, formatOfChannels, decimalValue, decimalFrom]
  refine ⟨?_, ?_, ?_, ?_, ?_, ?_, ?_⟩
  · simpa [ascii, magic, decimalText] using hbit 49 (by decide)
  · simpa [ascii, magic, decimalText] using hcl 50 (by decide)
  · simpa [ascii, magic, decimalText] using hcl 51 (by decide)
  · simpa [ascii, magic, decimalText] using hbit 52 (by decide)
  · simpa [ascii, magic, decimalText] using hcl 53 (by decide)
  · simpa [ascii, magic, decimalText] using hcl 54 (by decide)
  · have hd1 : IsDecimal [d] := ⟨by intro x hx; simp at hx; omega, d, [], rfl, by omega⟩
    have hdv : decimalValue [d] = d := by simp [decimalValue, decimalFrom]
    have e : ascii "P7\nWIDTH 4\nHEIGHT 4\nDEPTH " ++ decimalText [d]
          ++ ascii "\nMAXVAL " ++ decimalText ds ++ ascii "\nTUPLTYPE " ++ t
          ++ ascii "\nENDHDR\n" ++ rest = magic 55 ++ pamLines [4] [4] [d] ds t rest := by
      simp [ascii, magic, pamLines, kWIDTH, kHEIGHT, kDEPTH, kMAXVAL, kTUPLTYPE, kENDHDR,
        decimalText]
    have hs := scanPam_lines [4] [4] [d] ds t (by decide) (by decide) hd1 hds ht
      (by decide) (by decide) (by rw [hdv]; simp only [INT_MAX]; omega) hv rest
    rw [e]
    simp only [HeaderPNM.parse, HeaderPNM.scan, strncmpEq_magic7, Outcome.ok_bind, if_true, hs,
      HeaderPNM.check, hdv, h1, h2, or_self, if_false, hf]
    simp [decimalValue, decimalFrom, kENDHDR, ascii]

/-- Witness of C1: the maxvalue line `255`, DEPTH 3 and TUPLTYPE RGB, nothing after the
header. -/
theorem C1_magic_table_witness :
    HeaderPNM.parse (ascii "P1\n4 4\n" ++ []) =
      .ok { width := 4, height := 4, channels := 1, maxvalue := 1,
            format := .luminance 8 0xff 0, ascii := true, data := ascii "4 4\n" ++ [] }
    ∧ HeaderPNM.parse (ascii "P6\n4 4\n" ++ decimalText [2, 5, 5] ++ 10 :: []) =
      .ok { width := 4, height := 4, channels := 3, maxvalue := decimalValue [2, 5, 5],
            format := .components 24 .UNORM .RGB 8 8 8 0, ascii := false,
            data := decimalText [2, 5, 5] ++ 10 :: [] }
    ∧ HeaderPNM.parse (ascii "P7\nWIDTH 4\nHEIGHT 4\nDEPTH " ++ decimalText [3]
          ++ ascii "\nMAXVAL " ++ decimalText [2, 5, 5] ++ ascii "\nTUPLTYPE " ++ ascii "RGB"
          ++ ascii "\nENDHDR\n" ++ []) =
      .ok { width := 4, height := 4, channels := (3 : Nat), maxvalue := decimalValue [2, 5, 5],
            format := .components 24 .UNORM .RGB 8 8 8 0, ascii := false,
            data := ascii "ENDHDR\n" ++ [] } :=
  have h := C1_magic_table [2, 5, 5] (by decide) (by decide) 3 (by decide)
    (.components 24 .UNORM .RGB 8 8 8 0) rfl (ascii "RGB") (by decide) []
  ⟨h.1, h.2.2.2.2.2.1, h.2.2.2.2.2.2⟩

/-- C2: a buffer that does not begin with `P`, a digit from 1 to 7 and a line feed never
parses to a header; when it has three bytes or more the constructor throws "Incorrect
header", so that no decoder is created and no pixel is decoded. -/
theorem C2_bad_magic_rejected (mem : List Nat)
    (hmagic : ¬ ∃ k rest, 49 ≤ k ∧ k ≤ 55 ∧ mem = magic k ++ rest) :
    (HeaderPNM.parse mem).isOk = false
    ∧ (3 ≤ mem.length → HeaderPNM.parse mem = .error .incorrectHeader)
    ∧ (∀ size, 3 ≤ mem.length →
        createInterface { address := mem, size := size } = .error .incorrectHeader)
    ∧ (∀ size dest, (decodeBytes { address := mem, size := size } dest).isOk = false) := by
  have hno : (HeaderPNM.parse mem).isOk = false := by
    cases hp : HeaderPNM.parse mem with
    | ok hd =>
      obtain ⟨s, hs, _⟩ := (parse_ok_iff mem hd).1 hp
      exact absurd (scan_ok_magic mem s hs) hmagic
    | error e => rfl
    | undefined => rfl
  have herr : 3 ≤ mem.length → HeaderPNM.parse mem = .error .incorrectHeader := by
    intro hlen
    have hk : ∀ k, 49 ≤ k → k ≤ 55 → strncmpEq mem (magic k) = .ok false := by
      intro k h1 h2
      apply strncmpEq_false _ _ (by simpa [magic] using hlen)
      rintro ⟨rest, hr⟩
      exact hmagic ⟨k, rest, h1, h2, hr⟩
    simp [HeaderPNM.parse, HeaderPNM.scan, scanClassic, classicMagic, hk]
  refine ⟨hno, herr, ?_, ?_⟩
  · intro size h3
    simp [createInterface, herr h3]
  · intro size dest
    simp only [decodeBytes, createInterface]
    cases hp : HeaderPNM.parse mem with
    | ok hd => rw [hp] at hno; simp [Outcome.isOk] at hno
    | error e => rfl
    | undefined => rfl

/-- Witness of C2: the buffer `P9\n4 4\n`. -/
theorem C2_bad_magic_rejected_witness :
    (HeaderPNM.parse (ascii "P9\n4 4\n")).isOk = false
    ∧ (3 ≤ (ascii "P9\n4 4\n").length →
        HeaderPNM.parse (ascii "P9\n4 4\n") = .error .incorrectHeader)
    ∧ (∀ size, 3 ≤ (ascii "P9\n4 4\n").length →
        createInterface { address := ascii "P9\n4 4\n", size := size } = .error .incorrectHeader)
    ∧ (∀ size dest,
        (decodeBytes { address := ascii "P9\n4 4\n", size := size } dest).isOk = false) :=
  C2_bad_magic_rejected (ascii "P9\n4 4\n") (by
    rintro ⟨k, rest, h1, h2, h⟩
    have hk : k = 57 := by
      have := congrArg (fun l => l.get? 1) h
      simpa [ascii, magic] using this.symm
    omega)

/-- C3: a header that the constructor returns has maxvalue in [1, 65535] and channels 1, 2,
3 or 4, and its format is the one the `switch` gives for its channels alone, of 8, 16, 24
and 32 bits; and when the scan of the header text gives a maxvalue outside [1, 65535] or a
channel count other than 1, 2, 3, 4, the constructor throws. -/
theorem C3_header_validation (mem : List Nat) :
    (∀ hd, HeaderPNM.parse mem = .ok hd →
      1 ≤ hd.maxvalue ∧ hd.maxvalue ≤ 65535
      ∧ (hd.channels = 1 ∨ hd.channels = 2 ∨ hd.channels = 3 ∨ hd.channels = 4)
      ∧ formatOfChannels hd.channels = .ok hd.format
      ∧ (hd.format.bits : Int) = 8 * hd.channels)
    ∧ (∀ s, HeaderPNM.scan mem = .ok s →
        (s.maxvalue < 1 ∨ 65535 < s.maxvalue) →
        HeaderPNM.parse mem = .error .incorrectMaxvalue)
    ∧ (∀ s, HeaderPNM.scan mem = .ok s →
        ¬ (s.maxvalue < 1 ∨ 65535 < s.maxvalue) →
        ¬ (s.channels = 1 ∨ s.channels = 2 ∨ s.channels = 3 ∨ s.channels = 4) →
        HeaderPNM.parse mem = .error .incorrectChannels) := by
  refine ⟨?_, ?_, ?_⟩
  · intro hd hp
    obtain ⟨s, _, hc⟩ := (parse_ok_iff mem hd).1 hp
    unfold HeaderPNM.check at hc
    by_cases hm : s.maxvalue < 1 ∨ s.maxvalue > 65535
    · simp [hm] at hc
    · simp only [hm, if_false] at hc
      have hm1 : 1 ≤ s.maxvalue := by
        by_contra h; exact hm (Or.inl (by omega))
      have hm2 : s.maxvalue ≤ 65535 := by
        by_contra h; exact hm (Or.inr (by omega))
      by_cases c1 : s.channels = 1
      · simp [formatOfChannels, c1] at hc
        subst hc
        simp [hm1, hm2, c1, formatOfChannels, Format.bits]
      by_cases c2 : s.channels = 2
      · simp [formatOfChannels, c2] at hc
        subst hc
        simp [hm1, hm2, c2, formatOfChannels, Format.bits]
      by_cases c3 : s.channels = 3
      · simp [formatOfChannels, c3] at hc
        subst hc
        simp [hm1, hm2, c3, formatOfChannels, Format.bits]
      by_cases c4 : s.channels = 4
      · simp [formatOfChannels, c4] at hc
        subst hc
        simp [hm1, hm2, c4, formatOfChannels, Format.bits]
      · simp [formatOfChannels, c1, c2, c3, c4] at hc
  · intro s hs hm
    have hm' : s.maxvalue < 1 ∨ s.maxvalue > 65535 := hm
    simp [HeaderPNM.parse, hs, HeaderPNM.check, hm']
  · intro s hs hm hc
    have hm' : ¬ (s.maxvalue < 1 ∨ s.maxvalue > 65535) := hm
    have c1 : s.channels ≠ 1 := fun h => hc (Or.inl h)
    have c2 : s.channels ≠ 2 := fun h => hc (Or.inr (Or.inl h))
    have c3 : s.channels ≠ 3 := fun h => hc (Or.inr (Or.inr (Or.inl h)))
    have c4 : s.channels ≠ 4 := fun h => hc (Or.inr (Or.inr (Or.inr h)))
    simp only [HeaderPNM.parse, hs, Outcome.ok_bind, HeaderPNM.check, hm', if_false,
      formatOfChannels, c1, c2, c3, c4]
    rfl

/-- Witness of C3: a P6 header of maxvalue 255 passes the checks with 24 bits, a P5 header
of maxvalue 65536 and a P7 header of DEPTH 5 are refused. -/
theorem C3_header_validation_witness :
    (HeaderPNM.parse (ascii "P6\n4 4\n255\n") =
        .ok { width := 4, height := 4, channels := 3, maxvalue := 255,
              format := .components 24 .UNORM .RGB 8 8 8 0, ascii := false,
              data := ascii "255\n" } ∧
      ((Format.components 24 .UNORM .RGB 8 8 8 0).bits : Int) = 8 * 3)
    ∧ HeaderPNM.parse (ascii "P5\n4 4\n65536\n") = .error .incorrectMaxvalue
    ∧ HeaderPNM.parse
        (ascii "P7\nWIDTH 4\nHEIGHT 4\nDEPTH 5\nMAXVAL 255\nTUPLTYPE RGB\nENDHDR\n") =
        .error .incorrectChannels :=
  ⟨⟨by decide,
      ((C3_header_validation (ascii "P6\n4 4\n255\n")).1
        { width := 4, height := 4, channels := 3, maxvalue := 255,
          format := .components 24 .UNORM .RGB 8 8 8 0, ascii := false,
          data := ascii "255\n" } (by decide)).2.2.2.2⟩,
    (C3_header_validation (ascii "P5\n4 4\n65536\n")).2.1
      { width := 4, height := 4, channels := 1, maxvalue := 65536, ascii := false,
        p := ascii "65536\n" } (by decide) (by decide),
    (C3_header_validation
        (ascii "P7\nWIDTH 4\nHEIGHT 4\nDEPTH 5\nMAXVAL 255\nTUPLTYPE RGB\nENDHDR\n")).2.2
      { width := 4, height := 4, channels := 5, maxvalue := 255, ascii := false,
        p := ascii "ENDHDR\n" } (by decide) (by decide) (by decide)⟩

/-- C4, as the code falsifies it: the header `P5\n0 -4\n255\n`, of width 0 and height -4,
parses without error. -/
theorem C4_counterexample :
    HeaderPNM.parse (ascii "P5\n0 -4\n255\n") =
      .ok { width := 0, height := -4, channels := 1, maxvalue := 255,
            format := .luminance 8 0xff 0, ascii := false, data := ascii "255\n" } := by
  decide

/-- C4, amended: the constructor does not check the dimensions. Whenever the scan of the
header text succeeds with maxvalue in [1, 65535] and channels 1, 2, 3 or 4, the constructor
returns a header, and a header it returns carries the width and the height of the scan as
they are, whatever their sign. -/
theorem C4_dimensions_unchecked (mem : List Nat) (s : Scanned)
    (hs : HeaderPNM.scan mem = .ok s) :
    ((1 ≤ s.maxvalue ∧ s.maxvalue ≤ 65535) →
      (s.channels = 1 ∨ s.channels = 2 ∨ s.channels = 3 ∨ s.channels = 4) →
      ∃ hd, HeaderPNM.parse mem = .ok hd)
    ∧ (∀ hd, HeaderPNM.parse mem = .ok hd → hd.width = s.width ∧ hd.height = s.height) := by
  refine ⟨?_, ?_⟩
  · rintro ⟨hm1, hm2⟩ hc
    have hm : ¬ (s.maxvalue < 1 ∨ s.maxvalue > 65535) := by omega
    rcases hc with c | c | c | c <;>
      simp [HeaderPNM.parse, hs, HeaderPNM.check, hm, formatOfChannels, c]
  · intro hd hp
    obtain ⟨s2, hs2, hc⟩ := (parse_ok_iff mem hd).1 hp
    rw [hs] at hs2
    cases hs2
    unfold HeaderPNM.check at hc
    by_cases hm : s.maxvalue < 1 ∨ s.maxvalue > 65535
    · simp [hm] at hc
    · simp only [hm, if_false] at hc
      cases hf : formatOfChannels s.channels with
      | ok f =>
        simp [hf] at hc
        subst hc
        exact ⟨rfl, rfl⟩
      | error e => simp [hf] at hc
      | undefined => simp [hf] at hc

/-- Witness of C4 amended: the header `P5\n0 -4\n255\n`. -/
theorem C4_dimensions_unchecked_witness :
    (∃ hd, HeaderPNM.parse (ascii "P5\n0 -4\n255\n") = .ok hd)
    ∧ (∀ hd, HeaderPNM.parse (ascii "P5\n0 -4\n255\n") = .ok hd →
        hd.width = 0 ∧ hd.height = -4) :=
  have h := C4_dimensions_unchecked (ascii "P5\n0 -4\n255\n")
    { width := 0, height := -4, channels := 1, maxvalue := 255, ascii := false,
      p := ascii "255\n" } (by decide)
  ⟨h.1 (by decide) (by decide), h.2⟩

/-- C5, at the failing input: a P5 image of 2 by 1 pixels and maxvalue 255 whose pixel
bytes are 0x23, 0x0A. The specified destination row is 0x23, 0x0A. `decode_matching`
reaches the pixel data with `nextline` (line 208), which takes the two bytes for a comment
line: the copy starts after them, outside the buffer, and with two more bytes behind (0x41,
0x42) these are what the destination gets. A first byte other than `#` is copied as
specified: 0x24, 0x0A stay 0x24, 0x0A, and the bytes 1, 0, 1, 1 of a maxvalue 1 image stay
1, 0, 1, 1. -/
theorem C5_hash_row_not_copied :
    decodeBytes (Memory.ofBytes (ascii "P5\n2 1\n255\n" ++ [35, 10]))
        (Surface.filled 2 1 (.luminance 8 0xff 0) 2 99) = .undefined
    ∧ decodeBytes (Memory.ofBytes (ascii "P5\n2 1\n255\n" ++ [35, 10, 65, 66]))
        (Surface.filled 2 1 (.luminance 8 0xff 0) 2 99) = .ok [65, 66]
    ∧ decodeBytes (Memory.ofBytes (ascii "P5\n2 1\n255\n" ++ [36, 10]))
        (Surface.filled 2 1 (.luminance 8 0xff 0) 2 99) = .ok [36, 10]
    ∧ createInterface demoBitmap = .ok demoBitmapInterface
    ∧ demoBitmapInterface.decode_matching demoGray3 =
        .ok { demoGray3 with image := [1, 0, 99, 99, 1, 1, 99, 99, 99, 99, 99, 99] } := by
  decide

/-- C6, at the failing input: a P5 image of 1 by 1 pixel and maxvalue 65535 whose sample is
the pair 0x23, 0x0A, followed by the two bytes 0x80, 0x00. The specified output byte is
`(256 * 35 + 10) * 255 / 65535 = 34`. `decode_matching` reaches the pixel data with
`nextline` (line 208), which takes the pair for a comment line, and the sample is read from
the next pair: the output byte is 127; on the image of 2 by 1 pixels with these four bytes
the second sample is read outside the buffer. A first byte other than `#` is decoded as
specified: the pair 0x24, 0x0A gives 35 and the sample 0x8000 gives 127. -/
theorem C6_hash_pair_not_decoded :
    rescale (256 * 35 + 10) 65535 = .ok 34
    ∧ decodeBytes (Memory.ofBytes (ascii "P5\n1 1\n65535\n" ++ [35, 10, 128, 0]))
        (Surface.filled 1 1 (.luminance 8 0xff 0) 1 99) = .ok [127]
    ∧ decodeBytes (Memory.ofBytes (ascii "P5\n2 1\n65535\n" ++ [35, 10, 128, 0]))
        (Surface.filled 2 1 (.luminance 8 0xff 0) 2 99) = .undefined
    ∧ decodeBytes (Memory.ofBytes (ascii "P5\n1 1\n65535\n" ++ [36, 10]))
        (Surface.filled 1 1 (.luminance 8 0xff 0) 1 99) = .ok [35]
    ∧ createInterface demoWide = .ok demoWideInterface
    ∧ demoWideInterface.decode_matching demoGray3 =
        .ok { demoGray3 with image := [127, 99, 99, 99, 99, 99, 99, 99, 99, 99, 99, 99] } := by
  decide

/-- C7: ASCII mode on a pixel text of exactly `height * width * channels` decimal numbers,
each at most maxvalue and followed by exactly one white space byte, the text lying inside
the buffer. The byte `x` of row `y` of the destination becomes `v * 255 / maxvalue`,
rounded down, for the number `v` of index `y * width * channels + x`. -/
theorem C7_ascii_single_space (it : Interface) (dest : Surface) (w h c m : Nat)
    (toks : List (List Nat × Nat)) (line post : List Nat)
    (hasc : it.m_header.ascii = true) (hm : it.m_header.maxvalue = m)
    (hm1 : 1 ≤ m) (hm2 : m ≤ 65535)
    (hw : it.m_header.width = w) (hh : it.m_header.height = h) (hc : it.m_header.channels = c)
    (hfmt : formatOfChannels it.m_header.channels = .ok it.m_header.format)
    (hx : w * c ≤ 2147483647)
    (hdata : it.m_header.data = line ++ 10 :: (tokensText toks ++ post)) (hline : 10 ∉ line)
    (hcount : toks.length = h * (w * c)) (hsome : toks ≠ [])
    (htok : ∀ t ∈ toks, TokenOk m t)
    (hend : it.m_memory.address.length ≤ it.m_memory.size + post.length)
    (hdf : dest.format = it.m_header.format) (hdw : it.m_header.width ≤ dest.width)
    (hdh : it.m_header.height ≤ dest.height) (hdest : dest.Holds) :
    ∃ img, it.decode_matching dest = .ok { dest with image := img }
      ∧ (∀ y x, y < h → x < w * c →
          img[y * dest.stride + x]? =
            some (decimalValue (toks.getD (y * (w * c) + x) ([], 0)).1 * 255 / m))
      ∧ (∀ i, (∀ y, y < h → i < y * dest.stride ∨ y * dest.stride + w * c ≤ i) →
          img[i]? = dest.image[i]?) := by
  obtain ⟨hxs, himg⟩ := dest_room it.m_header dest w h c hw hh hc hfmt hdf hdw hdh hdest
  obtain ⟨img, hrun, _, hrows, hframe⟩ :=
    asciiRows_written it.m_memory m dest.stride (w * c) (by omega) hm2 hxs h 0 toks dest.image
      post hcount htok himg hend
  have hstart : StartsLine (tokensText toks ++ post) :=
    startsLine_tokens m toks post hsome htok
  have hpix : nextline it.m_header.data = .ok (tokensText toks ++ post) := by
    rw [hdata]; exact nextline_skip line _ hline hstart
  refine ⟨img, ?_, ?_, ?_⟩
  · simp only [Interface.decode_matching, hpix, Outcome.ok_bind, hw, hc, intMul_nat w c hx, hasc,
      if_true, hm, hh, Int.toNat_ofNat, hrun]
    rfl
  · intro y x hy hx2
    have := hrows y x hy hx2
    simp only [Nat.zero_add, asciiSample] at this
    rw [this]
    have hin : y * (w * c) + x < toks.length := by
      rw [hcount]; exact index_in_rows y x h (w * c) hy hx2
    have hmem : toks.getD (y * (w * c) + x) ([], 0) ∈ toks := by
      rw [List.getD_eq_getElem?_getD, List.getElem?_eq_getElem hin]
      exact List.getElem_mem _
    obtain ⟨_, _, hle⟩ := htok _ hmem
    have hq : decimalValue (toks.getD (y * (w * c) + x) ([], 0)).1 * 255 / m ≤ 255 :=
      Nat.div_le_of_le_mul (by
        have := Nat.mul_le_mul_right 255 hle
        omega)
    rw [Nat.mod_eq_of_lt (by omega)]
  · intro i hi
    apply hframe
    intro k hk
    simpa using hi k hk

/-- Witness of C7: with maxvalue 15 the tokens 15, 0 and 7 decode to 255, 0 and 119. -/
theorem C7_ascii_single_space_witness :
    createInterface demoAscii = .ok demoAsciiInterface
    ∧ demoAsciiInterface.decode_matching demoGray3 =
        .ok { demoGray3 with image := [255, 0, 119, 99, 99, 99, 99, 99, 99, 99, 99, 99] }
    ∧ ∃ img, demoAsciiInterface.decode_matching demoGray3 = .ok { demoGray3 with image := img }
      ∧ (∀ y x, y < 1 → x < 3 * 1 →
          img[y * demoGray3.stride + x]? =
            some (decimalValue (demoTokens.getD (y * (3 * 1) + x) ([], 0)).1 * 255 / 15))
      ∧ (∀ i, (∀ y, y < 1 → i < y * demoGray3.stride ∨ y * demoGray3.stride + 3 * 1 ≤ i) →
          img[i]? = demoGray3.image[i]?) :=
  ⟨by decide, by decide,
    C7_ascii_single_space demoAsciiInterface demoGray3 3 1 1 15 demoTokens [49, 53] [] rfl rfl
      (by decide) (by decide) rfl rfl rfl (by decide) (by decide) (by decide) (by decide)
      (by decide) (by decide) (by decide) (by decide) rfl (by decide) (by decide)
      (by simp [Surface.Holds, demoGray3, Surface.filled, Format.bytes, Format.bits])⟩

/-- C8, at the failing input: a P2 image of 3 by 1 pixels and maxvalue 15 whose numbers
15, 7 and 0 are separated by two spaces and one space. The decoder returns 255, 119, 119:
the loop of line 222 steps over one white space only, so the token 7 is read a second time
for the third sample and the token 0 is never read. -/
theorem C8_double_space_decoded_twice :
    decodeBytes (Memory.ofBytes (ascii "P2\n3 1\n15\n15  7 0 "))
        (Surface.filled 3 1 (.luminance 8 0xff 0) 3 99) = .ok [255, 119, 119]
    ∧ decodeBytes (Memory.ofBytes (ascii "P2\n3 1\n15\n15 7 0 "))
        (Surface.filled 3 1 (.luminance 8 0xff 0) 3 99) = .ok [255, 119, 0] := by
  decide

/-- C9, at the failing input: a P2 image of 2 by 2 pixels whose text ends after the first
sample. The `break` of line 227 leaves the loop over `x` only: on the next row the decoder
calls `atoi` at the end of the buffer, a read outside the buffer; and when bytes are
readable there (the buffer is the first 12 bytes of a longer storage) the first byte of row
1 is overwritten, 99 becoming 153. -/
theorem C9_truncated_text_next_row_written :
    decodeBytes (Memory.ofBytes (ascii "P2\n2 2\n15\n7 "))
        (Surface.filled 2 2 (.luminance 8 0xff 0) 2 99) = .undefined
    ∧ decodeBytes { address := ascii "P2\n2 2\n15\n7 9 9 9 ", size := 12 }
        (Surface.filled 2 2 (.luminance 8 0xff 0) 2 99) = .ok [119, 99, 153, 99] := by
  decide

/-- C10, at the failing input: a P5 image of maxvalue 255 whose first pixel byte is 0x23
(`#`). The header parses, with `data` on the maxvalue line; `nextline` then takes the pixel
bytes `#`, `\n` for a comment line, so that decoding starts two bytes late: on the 2 by 2
image it runs out of the buffer, and on a 1 by 1 image followed by two more bytes the
output byte is 0x41 and not 0x23. -/
theorem C10_hash_pixel_skipped :
    HeaderPNM.parse (ascii "P5\n2 2\n255\n" ++ [35, 10, 65, 66]) =
      .ok { width := 2, height := 2, channels := 1, maxvalue := 255,
            format := .luminance 8 0xff 0, ascii := false,
            data := ascii "255\n" ++ [35, 10, 65, 66] }
    ∧ nextline (ascii "255\n" ++ [35, 10, 65, 66]) = .ok [65, 66]
    ∧ decodeBytes (Memory.ofBytes (ascii "P5\n2 2\n255\n" ++ [35, 10, 65, 66]))
        (Surface.filled 2 2 (.luminance 8 0xff 0) 2 99) = .undefined
    ∧ decodeBytes (Memory.ofBytes (ascii "P5\n1 1\n255\n" ++ [35, 10, 65]))
        (Surface.filled 1 1 (.luminance 8 0xff 0) 1 99) = .ok [65] := by
  decide

/-- C11: comment lines (each a `#`, a body without line feed, a line feed) put
between the lines of a header whose lines each hold their own fields do not change what the
constructor returns, so the header has the same width, height, channels, maxvalue, ascii
flag and format (and the same data pointer, or the same exception) as without them. Right
after the magic line this holds for every buffer and every magic; between the dimension
line and the maxvalue line of P2, P3, P5 and P6, and between the lines of a P7 header, it
holds when each line before such comments is a header line: not a comment, and scanned
without reading past its own line feed (the dimension line holds both dimensions, a key
line holds its number). -/
theorem C11_comment_lines_skipped (k : Nat) (c0 c1 c2 c3 c4 c5 : List (List Nat))
    (h0 : IsComments c0) (h1 : IsComments c1) (h2 : IsComments c2) (h3 : IsComments c3)
    (h4 : IsComments c4) (h5 : IsComments c5)
    (ldim lmax : List Nat) (rdim : Outcome (Option (Int × Int)))
    (hdim : HeaderLine sscanf_i_i ldim rdim) (hmax : ∀ t, lmax ≠ 35 :: t)
    (lw lh ld lm lt : List Nat) (rw rh rd rm : Outcome (Option Int)) (rt : Outcome Bool)
    (hlw : HeaderLine (sscanf_key_i kWIDTH) lw rw) (hlh : HeaderLine (sscanf_key_i kHEIGHT) lh rh)
    (hld : HeaderLine (sscanf_key_i kDEPTH) ld rd) (hlm : HeaderLine (sscanf_key_i kMAXVAL) lm rm)
    (hlt : HeaderLine (sscanf_key_s kTUPLTYPE) lt rt) (X pix rest : List Nat) :
    HeaderPNM.parse (magic k ++ (commentLines c0 ++ X)) = HeaderPNM.parse (magic k ++ X)
    ∧ ((k = 50 ∨ k = 51 ∨ k = 53 ∨ k = 54) →
        HeaderPNM.parse (magic k ++ (commentLines c0 ++ (ldim ++ 10 :: (commentLines c1 ++
            (lmax ++ 10 :: pix))))) =
          HeaderPNM.parse (magic k ++ (ldim ++ 10 :: (lmax ++ 10 :: pix))))
    ∧ HeaderPNM.parse (magic 55 ++ (commentLines c0 ++ (lw ++ 10 :: (commentLines c1 ++
          (lh ++ 10 :: (commentLines c2 ++ (ld ++ 10 :: (commentLines c3 ++ (lm ++ 10 ::
            (commentLines c4 ++ (lt ++ 10 :: (commentLines c5 ++ rest)))))))))))) =
        HeaderPNM.parse (magic 55 ++ (lw ++ 10 :: (lh ++ 10 :: (ld ++ 10 :: (lm ++ 10 ::
          (lt ++ 10 :: rest)))))) := by
  refine ⟨?_, ?_, ?_⟩
  · simp only [HeaderPNM.parse, scan_magic_comments k c0 h0]
  · intro hk
    have hk7 : k ≠ 55 := by omega
    simp only [HeaderPNM.parse, scan_magic_comments k c0 h0]
    simp only [HeaderPNM.scan, strncmpEq_magic_ne k hk7, Outcome.ok_bind, Bool.false_eq_true,
      if_false, scanClassic_comments k hk c1 h1 ldim lmax rdim hdim hmax pix]
  · simp only [HeaderPNM.parse, scan_magic_comments 55 c0 h0]
    simp only [HeaderPNM.scan, strncmpEq_magic7, Outcome.ok_bind, if_true,
      scanPam_comments c1 c2 c3 c4 c5 h1 h2 h3 h4 h5 lw lh ld lm lt rw rh rd rm rt hlw hlh hld
        hlm hlt rest]

/-- Witness of C11: a P5 header `4 4`, `255` and a P7 header of 4 by 4 pixels, DEPTH 3,
MAXVAL 255, TUPLTYPE RGB, with the comment lines `# a` and `#` at every place. -/
theorem C11_comment_lines_skipped_witness :
    (HeaderPNM.parse (magic 53 ++ (commentLines [[32, 97], []] ++ ascii "4 4\n255\n")) =
        HeaderPNM.parse (magic 53 ++ ascii "4 4\n255\n")
      ∧ HeaderPNM.parse (magic 53 ++ (commentLines [[32, 97], []] ++ (ascii "4 4" ++ 10 ::
            (commentLines [[32, 97], []] ++ (ascii "255" ++ 10 :: ascii "abc"))))) =
          HeaderPNM.parse (magic 53 ++ (ascii "4 4" ++ 10 :: (ascii "255" ++ 10 :: ascii "abc")))
      ∧ HeaderPNM.parse (magic 55 ++ (commentLines [[32, 97], []] ++ (ascii "WIDTH 4" ++ 10 ::
          (commentLines [[32, 97], []] ++ (ascii "HEIGHT 4" ++ 10 :: (commentLines [[32, 97], []] ++
            (ascii "DEPTH 3" ++ 10 :: (commentLines [[32, 97], []] ++ (ascii "MAXVAL 255" ++ 10 ::
              (commentLines [[32, 97], []] ++ (ascii "TUPLTYPE RGB" ++ 10 ::
                (commentLines [[32, 97], []] ++ ascii "ENDHDR\nabc")))))))))))) =
          HeaderPNM.parse (magic 55 ++ (ascii "WIDTH 4" ++ 10 :: (ascii "HEIGHT 4" ++ 10 ::
            (ascii "DEPTH 3" ++ 10 :: (ascii "MAXVAL 255" ++ 10 :: (ascii "TUPLTYPE RGB" ++ 10 ::
              ascii "ENDHDR\nabc")))))))
    ∧ HeaderPNM.parse (ascii "P5\n# a\n#\n4 4\n# a\n#\n255\nabc") =
        .ok { width := 4, height := 4, channels := 1, maxvalue := 255,
              format := .luminance 8 0xff 0, ascii := false, data := ascii "255\nabc" } :=
  have h := C11_comment_lines_skipped 53 [[32, 97], []] [[32, 97], []] [[32, 97], []]
    [[32, 97], []] [[32, 97], []] [[32, 97], []] (by decide) (by decide) (by decide) (by decide)
    (by decide) (by decide)
    (ascii "4 4") (ascii "255") _
    (headerLine_dimension [4] [4] (by decide) (by decide) (by decide) (by decide))
    (by intro t h; simp [ascii] at h)
    (ascii "WIDTH 4") (ascii "HEIGHT 4") (ascii "DEPTH 3") (ascii "MAXVAL 255")
    (ascii "TUPLTYPE RGB") _ _ _ _ _
    (headerLine_key kWIDTH [4] (by decide)
      (by intro r t h; simp [kWIDTH] at h) (by decide) (by decide))
    (headerLine_key kHEIGHT [4] (by decide)
      (by intro r t h; simp [kHEIGHT] at h) (by decide) (by decide))
    (headerLine_key kDEPTH [3] (by decide)
      (by intro r t h; simp [kDEPTH] at h) (by decide) (by decide))
    (headerLine_key kMAXVAL [2, 5, 5] (by decide)
      (by intro r t h; simp [kMAXVAL] at h) (by decide) (by decide))
    (headerLine_tupltype (ascii "RGB") (by decide))
    (ascii "4 4\n255\n") (ascii "abc") (ascii "ENDHDR\nabc")
  ⟨⟨h.1, h.2.1 (by decide), h.2.2⟩, by decide⟩

/-- C12, at the failing input: a P7 header of the lines WIDTH 4, HEIGHT 4, DEPTH 3,
MAXVAL 255 and ENDHDR, without a TUPLTYPE line, followed by pixel bytes. The constructor
tests for TUPLTYPE on the ENDHDR line, then steps to the next line whether or not it found
one, and looks for ENDHDR in the pixel data: it throws "Incorrect endhdr". The same header
with a TUPLTYPE line parses to width 4, height 4, channels 3 and maxvalue 255, whatever the
TUPLTYPE word is. -/
theorem C12_missing_tupltype_rejected :
    HeaderPNM.parse
        (ascii "P7\nWIDTH 4\nHEIGHT 4\nDEPTH 3\nMAXVAL 255\nENDHDR\n0123456789ab") =
      .error .incorrectEndhdr
    ∧ HeaderPNM.parse
        (ascii "P7\nWIDTH 4\nHEIGHT 4\nDEPTH 3\nMAXVAL 255\nTUPLTYPE RGB\nENDHDR\n0123456789ab") =
      .ok { width := 4, height := 4, channels := 3, maxvalue := 255,
            format := .components 24 .UNORM .RGB 8 8 8 0, ascii := false,
            data := ascii "ENDHDR\n0123456789ab" }
    ∧ HeaderPNM.parse
        (ascii "P7\nWIDTH 4\nHEIGHT 4\nDEPTH 3\nMAXVAL 255\nTUPLTYPE RGB_ALPHA\nENDHDR\n0123456789ab") =
      .ok { width := 4, height := 4, channels := 3, maxvalue := 255,
            format := .components 24 .UNORM .RGB 8 8 8 0, ascii := false,
            data := ascii "ENDHDR\n0123456789ab" } := by
  decide

/-- C13, at the failing input: a P7 header whose line expected to carry MAXVAL is `MAXVAL`
alone, followed by the lines `255` and `ENDHDR`. The specified outcome is an exception. The call
`sscanf(p, "MAXVAL %i", ...)` reads the integer of the next line, and the `nextline` of
line 99, which runs whether or not a TUPLTYPE line was found, steps over the line `255`:
the header parses, with maxvalue 255. Elsewhere the code throws as specified: a WIDTH or
DEPTH line without its number, a MAXVAL line with `abc` for a number, and a last line that
is not `ENDHDR` each throw. -/
theorem C13_maxval_line_without_number_accepted :
    HeaderPNM.parse (ascii "P7\nWIDTH 4\nHEIGHT 4\nDEPTH 3\nMAXVAL\n255\nENDHDR\n") =
      .ok { width := 4, height := 4, channels := 3, maxvalue := 255,
            format := .components 24 .UNORM .RGB 8 8 8 0, ascii := false,
            data := ascii "ENDHDR\n" }
    ∧ HeaderPNM.parse
        (ascii "P7\nWIDTH\n4\nHEIGHT 4\nDEPTH 3\nMAXVAL 255\nTUPLTYPE RGB\nENDHDR\n") =
      .error .incorrectHeight
    ∧ HeaderPNM.parse
        (ascii "P7\nWIDTH 4\nHEIGHT 4\nDEPTH\n3\nMAXVAL 255\nTUPLTYPE RGB\nENDHDR\n") =
      .error .incorrectMaxval
    ∧ HeaderPNM.parse
        (ascii "P7\nWIDTH 4\nHEIGHT 4\nDEPTH 3\nMAXVAL abc\nTUPLTYPE RGB\nENDHDR\n") =
      .error .incorrectMaxval
    ∧ HeaderPNM.parse
        (ascii "P7\nWIDTH 4\nHEIGHT 4\nDEPTH 3\nMAXVAL 255\nTUPLTYPE RGB\nENDHDX\n") =
      .error .incorrectEndhdr := by
  decide

/-- C14: the dispatch of `decode`, for a header of width `w`, height `h` and `c` channels
with the format of its channels; `temp` is the temporary bitmap.
When the destination has the format of the header and at least its width and height,
`decode` is `decode_matching` on the destination itself; in every other case it is
`decode_matching` on `temp`, of exactly the width, height and format of the header, and the
destination is the result of blitting `temp` into it at (0, 0). On `temp` as on every
destination of the direct path that holds its rows, `decode_matching` lays out the same
samples, those of the source, row by row from offset (0, 0); so `decode` agrees with the
dispatch of the specification. -/
theorem C14_decode_dispatch (blit : Surface → Int → Int → Surface → Surface) (junk : Nat → Nat)
    (it : Interface) (dest : Surface) (w h c : Nat)
    (hw : it.m_header.width = w) (hh : it.m_header.height = h) (hc : it.m_header.channels = c)
    (hfmt : formatOfChannels it.m_header.channels = .ok it.m_header.format) :
    ((dest.format = it.m_header.format ∧ dest.width ≥ it.m_header.width
        ∧ dest.height ≥ it.m_header.height) →
      it.decode blit junk dest = it.decode_matching dest)
    ∧ (¬ (dest.format = it.m_header.format ∧ dest.width ≥ it.m_header.width
        ∧ dest.height ≥ it.m_header.height) →
      it.decode blit junk dest =
        (it.decode_matching
            (Bitmap.new it.m_header.width it.m_header.height it.m_header.format junk)
          >>= fun temp => Outcome.ok (blit dest 0 0 temp)))
    ∧ ((Bitmap.new it.m_header.width it.m_header.height it.m_header.format junk).width =
          it.m_header.width
        ∧ (Bitmap.new it.m_header.width it.m_header.height it.m_header.format junk).height =
          it.m_header.height
        ∧ (Bitmap.new it.m_header.width it.m_header.height it.m_header.format junk).format =
          it.m_header.format)
    ∧ it.decode_matching
          (Bitmap.new it.m_header.width it.m_header.height it.m_header.format junk) =
        (it.samples >>= fun rows => Outcome.ok
          { Bitmap.new it.m_header.width it.m_header.height it.m_header.format junk with
            image := layRows
              (Bitmap.new it.m_header.width it.m_header.height it.m_header.format junk).stride 0
              rows
              (Bitmap.new it.m_header.width it.m_header.height it.m_header.format junk).image })
    ∧ (∀ d : Surface, d.format = it.m_header.format → it.m_header.width ≤ d.width →
        it.m_header.height ≤ d.height → d.Holds →
        it.decode_matching d =
          (it.samples >>= fun rows =>
            Outcome.ok { d with image := layRows d.stride 0 rows d.image }))
    ∧ (((dest.format = it.m_header.format ∧ dest.width ≥ it.m_header.width
          ∧ dest.height ≥ it.m_header.height) → dest.Holds) →
      it.decode blit junk dest = decodeSpec blit junk it dest) := by
  have htemp := bitmap_room it.m_header w h c junk hw hh hc hfmt
  have hts := decode_matching_samples it
    (Bitmap.new it.m_header.width it.m_header.height it.m_header.format junk) w h c hw hh hc
    htemp.1 htemp.2
  have hdirect : ∀ d : Surface, d.format = it.m_header.format → it.m_header.width ≤ d.width →
      it.m_header.height ≤ d.height → d.Holds →
      it.decode_matching d =
        (it.samples >>= fun rows =>
          Outcome.ok { d with image := layRows d.stride 0 rows d.image }) := by
    intro d hdf hdw hdh hdest
    obtain ⟨hxs, himg⟩ := dest_room it.m_header d w h c hw hh hc hfmt hdf hdw hdh hdest
    exact decode_matching_samples it d w h c hw hh hc hxs (by simpa using himg)
  refine ⟨?_, ?_, ⟨rfl, rfl, rfl⟩, hts, hdirect, ?_⟩
  · intro hcond
    simp only [Interface.decode, hcond, and_self, if_true]
  · intro hcond
    simp only [Interface.decode, hcond, if_false]
    rfl
  · intro hroom
    by_cases hcond : dest.format = it.m_header.format ∧ dest.width ≥ it.m_header.width
        ∧ dest.height ≥ it.m_header.height
    · have := hdirect dest hcond.1 hcond.2.1 hcond.2.2 (hroom hcond)
      simp only [Interface.decode, decodeSpec, hcond, and_self, if_true, this]
      rfl
    · simp only [Interface.decode, decodeSpec, hcond, if_false, hts]
      cases it.samples with
      | error e => rfl
      | undefined => rfl
      | ok rows => rfl

/-- Witness of C14: the 2 by 2 image of one channel decoded into a destination of 2 by 2
pixels of four bytes (another format: the temporary bitmap is used and blitted) and into the
3 by 3 destination of one byte per pixel (decoded directly). -/
theorem C14_decode_dispatch_witness :
    demoBitmapInterface.decode demoBlit (fun _ => 7) demoRgba2 =
        (demoBitmapInterface.decode_matching
            (Bitmap.new demoBitmapInterface.m_header.width demoBitmapInterface.m_header.height
              demoBitmapInterface.m_header.format (fun _ => 7))
          >>= fun temp => Outcome.ok (demoBlit demoRgba2 0 0 temp))
    ∧ demoBitmapInterface.decode demoBlit (fun _ => 7) demoGray3 =
        demoBitmapInterface.decode_matching demoGray3
    ∧ demoBitmapInterface.decode demoBlit (fun _ => 7) demoRgba2 =
        decodeSpec demoBlit (fun _ => 7) demoBitmapInterface demoRgba2
    ∧ demoBitmapInterface.decode_matching
          (Bitmap.new 2 2 (.luminance 8 0xff 0) (fun _ => 7)) =
        .ok { Bitmap.new 2 2 (.luminance 8 0xff 0) (fun _ => 7) with image := [1, 0, 1, 1] }
    ∧ demoBitmapInterface.samples = .ok [[1, 0], [1, 1]] :=
  ⟨(C14_decode_dispatch demoBlit (fun _ => 7) demoBitmapInterface demoRgba2 2 2 1 rfl rfl rfl
      (by decide)).2.1 (by decide),
    (C14_decode_dispatch demoBlit (fun _ => 7) demoBitmapInterface demoGray3 2 2 1 rfl rfl rfl
      (by decide)).1 (by decide),
    (C14_decode_dispatch demoBlit (fun _ => 7) demoBitmapInterface demoRgba2 2 2 1 rfl rfl rfl
      (by decide)).2.2.2.2.2 (by
        intro hcond
        exact absurd hcond (by decide)),
    by decide, by decide⟩
